import Mathlib

/-!
BlockchainDemo: the `bank` chaincode

A shallow embedding of `src/bank/bank.go` (`SimpleChaincode.Init`, `Invoke`, `Query`)
together with the two collaborators it calls: the ledger stub
(`shim.ChaincodeStub.GetState` / `PutState`) and `strconv.Atoi` / `strconv.Itoa`.

Conventions of the embedding:
* a Go `string` and a Go `[]byte` are a Lean `String` (the conversions `[]byte(s)` and
  `string(b)` are the identity on the bytes); a nil `[]byte` is `none`;
* a Go `int` is a Lean `Int` kept inside the 64-bit two's complement range by `wrapInt`
  after every arithmetic operation;
* a Go `error` is `Option GoError`, `none` being `nil`;
* the ledger stub is passed explicitly and returned by every operation;
* an index expression `args[i]` is `indexArgs`, which fails when `i` is out of range: the
  operation then ends in `Outcome.panic`.
-/

namespace Bank

/-! ## Go integers -/

/-- Width of the Go type `int` on the platforms the chaincode runs on. -/
def intSize : Nat := 64

/-- Largest value of a Go `int`. -/
def maxInt : Int := 2 ^ (intSize - 1) - 1

/-- Smallest value of a Go `int`. -/
def minInt : Int := -(2 ^ (intSize - 1))

/-- Two's complement wrap-around of a mathematical integer into the range of a Go `int`. -/
def wrapInt (z : Int) : Int := (z + 2 ^ (intSize - 1)) % 2 ^ intSize - 2 ^ (intSize - 1)

/-- Whether a mathematical integer is a value of the Go type `int`. -/
def inIntRange (z : Int) : Prop := minInt ≤ z ∧ z ≤ maxInt

instance (z : Int) : Decidable (inIntRange z) := by
  unfold inIntRange; exact inferInstance

/-! ## strconv -/

/-- The two sentinel errors a `*strconv.NumError` can wrap. -/
inductive NumError where
  | ErrSyntax
  | ErrRange
  deriving DecidableEq, Repr

/-- The value `cutoff` of `strconv.ParseUint` for base 10: the least `n` such that `n * 10`
overflows a `uint64`. -/
def parseUintCutoff : Nat := (2 ^ 64 - 1) / 10 + 1

/-- The digit loop of `strconv.ParseUint(s, 10, 64)`, on the remaining bytes and the
accumulator `n`. A byte that is not a decimal digit is a syntax error (value 0); an
accumulator that would leave the `uint64` range is a range error (value `2^64 - 1`). -/
def parseUintLoop : List Char → Nat → Nat × Option NumError
  | [], n => (n, none)
  | c :: cs, n =>
    if '0'.toNat ≤ c.toNat ∧ c.toNat ≤ '9'.toNat then
      let d := c.toNat - '0'.toNat
      if n ≥ parseUintCutoff then (2 ^ 64 - 1, some NumError.ErrRange)
      else
        let n10 := n * 10
        let n1 := (n10 + d) % 2 ^ 64
        if n1 < n10 then (2 ^ 64 - 1, some NumError.ErrRange)
        else parseUintLoop cs n1
    else (0, some NumError.ErrSyntax)

/-- The function `strconv.ParseUint(s, 10, 64)`: the empty string is a syntax error. -/
def ParseUint (s : List Char) : Nat × Option NumError :=
  match s with
  | [] => (0, some NumError.ErrSyntax)
  | _ => parseUintLoop s 0

/-- The function `strconv.ParseInt(s, 10, 0)` with a 64-bit `int`: an optional sign, then
`ParseUint`; a syntax error returns 0, a magnitude outside the range returns the nearest
bound together with a range error. -/
def ParseInt (s : List Char) : Int × Option NumError :=
  match s with
  | [] => (0, some NumError.ErrSyntax)
  | c :: cs =>
    let neg := c = '-'
    let body := if c = '+' ∨ c = '-' then cs else c :: cs
    match ParseUint body with
    | (_, some NumError.ErrSyntax) => (0, some NumError.ErrSyntax)
    | (un, _) =>
      let cutoff : Nat := 2 ^ (intSize - 1)
      if ¬ neg ∧ un ≥ cutoff then ((cutoff : Int) - 1, some NumError.ErrRange)
      else if neg ∧ un > cutoff then (-(cutoff : Int), some NumError.ErrRange)
      else (if neg then -(un : Int) else (un : Int), none)

/-- The function `strconv.Atoi`: shorthand for `ParseInt(s, 10, 0)`. -/
def Atoi (s : String) : Int × Option NumError := ParseInt s.data

/-- The decimal digit `d` as a byte. -/
def digitChar (d : Nat) : Char := Char.ofNat ('0'.toNat + d)

/-- The digit loop of `strconv.FormatUint(n, 10)`: least significant digit first, pushed in
front of the digits already produced. The first argument bounds the number of digits. -/
def formatBits : Nat → Nat → List Char → List Char
  | 0, _, acc => acc
  | fuel + 1, n, acc =>
    if n < 10 then digitChar n :: acc
    else formatBits fuel (n / 10) (digitChar (n % 10) :: acc)

/-- Decimal digits of a natural number, most significant first. -/
def formatUint (n : Nat) : List Char := formatBits (n + 1) n []

/-- The function `strconv.Itoa`: the decimal digits, after a `-` for a negative number. -/
def Itoa (i : Int) : String :=
  match i with
  | Int.ofNat n => String.mk (formatUint n)
  | Int.negSucc n => String.mk ('-' :: formatUint (n + 1))

/-! ## The ledger stub -/

/-- A Go `error` value: made by the chaincode with `errors.New`, or handed back by the
ledger stub. -/
inductive GoError where
  | new (msg : String)
  | stub (code : Nat)
  deriving DecidableEq, Repr

/-- The ledger as the chaincode sees it through `shim.ChaincodeStub`. `state` is the
key-value content (`none`: the key is absent, `GetState` returns nil). `putErr n` and
`getErr n` decide the outcome of the `n`-th `PutState` and `GetState` call (counted from 0):
`none` is success, `some c` is the error the stub returns. `puts` and `gets` record every
call issued so far, oldest first. -/
structure ChaincodeStub where
  state : String → Option String
  putErr : Nat → Option Nat
  getErr : Nat → Option Nat
  puts : List (String × String)
  gets : List String

/-- Ledger content after writing `value` under `key`. -/
def writeState (state : String → Option String) (key value : String) : String → Option String :=
  fun k => if k = key then some value else state k

/-- The call `stub.PutState(key, value)`: the call is recorded; when the stub reports an
error nothing is written, otherwise the value replaces whatever the key held. -/
def PutState (stub : ChaincodeStub) (key value : String) : ChaincodeStub × Option GoError :=
  match stub.putErr stub.puts.length with
  | some c => ({ stub with puts := stub.puts ++ [(key, value)] }, some (GoError.stub c))
  | none =>
    ({ stub with puts := stub.puts ++ [(key, value)],
                 state := writeState stub.state key value }, none)

/-- The call `stub.GetState(key)`: the call is recorded; the ledger is never changed. -/
def GetState (stub : ChaincodeStub) (key : String) :
    ChaincodeStub × Option String × Option GoError :=
  match stub.getErr stub.gets.length with
  | some c => ({ stub with gets := stub.gets ++ [key] }, none, some (GoError.stub c))
  | none => ({ stub with gets := stub.gets ++ [key] }, stub.state key, none)

/-! ## The chaincode -/

/-- How a call of the chaincode ends: it returns the Go pair `([]byte, error)`, or it stops
with a run-time panic (index out of range), or the loop bound of the embedding was reached. -/
inductive Outcome where
  | ret (payload : Option String) (err : Option GoError)
  | panic
  | outOfFuel
  deriving DecidableEq, Repr

/-- The index expression `args[i]`. -/
def indexArgs (args : List String) (i : Nat) : Option String := args[i]?

/-- The loop `for i := 1; i < len(args); i += 2` of `Init`, from index `i` with the bank list
built so far. It returns the stub and the bank list when the loop ends normally (`Sum.inr`),
or the stub and the outcome when the body returns or panics (`Sum.inl`). -/
def initLoop : Nat → ChaincodeStub → List String → String → Nat → String →
    ChaincodeStub × (Outcome ⊕ String)
  | 0, stub, _, _, _, _ => (stub, Sum.inl Outcome.outOfFuel)
  | fuel + 1, stub, args, A, i, bankList =>
    if i < args.length then
      match indexArgs args i with
      | none => (stub, Sum.inl Outcome.panic)
      | some B =>
        match indexArgs args (i + 1) with
        | none => (stub, Sum.inl Outcome.panic)
        | some amount =>
          match Atoi amount with
          | (_, some _) =>
            (stub, Sum.inl (Outcome.ret none
              (some (GoError.new "Expecting integer value for asset holding"))))
          | (Aval, none) =>
            let key := A ++ "_" ++ B
            match PutState stub key (Itoa Aval) with
            | (stub1, some err) => (stub1, Sum.inl (Outcome.ret none (some err)))
            | (stub1, none) =>
              let bankList1 := if bankList ≠ "" then bankList ++ "," else bankList
              initLoop fuel stub1 args A (i + 2) (bankList1 ++ B)
    else (stub, Sum.inr bankList)

/-- The method `SimpleChaincode.Init` (the parameter `function` is not used by the body). -/
def Init (stub : ChaincodeStub) (args : List String) : ChaincodeStub × Outcome :=
  if args.length % 2 ≠ 1 then
    (stub, Outcome.ret none (some (GoError.new
      "Expecting odd number of arguments: [name, bank1, amount1, bank2, amount2, ......]")))
  else if args.length ≤ 1 then
    (stub, Outcome.ret none (some (GoError.new
      "Too few arguments. Expecting at least 3 (at least one bank account)")))
  else
    match indexArgs args 0 with
    | none => (stub, Outcome.panic)
    | some A =>
      match initLoop args.length stub args A 1 "" with
      | (stub1, Sum.inl out) => (stub1, out)
      | (stub1, Sum.inr bankList) =>
        match PutState stub1 A bankList with
        | (stub2, some err) => (stub2, Outcome.ret none (some err))
        | (stub2, none) => (stub2, Outcome.ret none none)

/-- The method `SimpleChaincode.Invoke` (the parameter `function` is not used by the body).
Both results of `strconv.Atoi` are used without looking at the error. -/
def Invoke (stub : ChaincodeStub) (args : List String) : ChaincodeStub × Outcome :=
  if args.length ≠ 4 then
    (stub, Outcome.ret none (some (GoError.new "Incorrect number of arguments. Expecting 4")))
  else
    match indexArgs args 0, indexArgs args 1, indexArgs args 3 with
    | some method, some A, some B =>
      let key := A ++ "_" ++ B
      match GetState stub key with
      | (stub1, _, some _) =>
        (stub1, Outcome.ret none (some (GoError.new "Failed to get state")))
      | (stub1, Avalbytes, none) =>
        let Aval := (Atoi (Avalbytes.getD "")).1
        match indexArgs args 2 with
        | none => (stub1, Outcome.panic)
        | some amount =>
          let X := (Atoi amount).1
          let Aval1 :=
            if method = "deposit" then wrapInt (Aval + X)
            else if method = "withdraw" then
              if wrapInt (Aval - X) > 0 then wrapInt (Aval - X) else 0
            else Aval
          match PutState stub1 key (Itoa Aval1) with
          | (stub2, some err) => (stub2, Outcome.ret none (some err))
          | (stub2, none) => (stub2, Outcome.ret none none)
    | _, _, _ => (stub, Outcome.panic)

/-- The method `SimpleChaincode.Query`. -/
def Query (stub : ChaincodeStub) (function : String) (args : List String) :
    ChaincodeStub × Outcome :=
  if function ≠ "query" then
    (stub, Outcome.ret none (some (GoError.new
      "Invalid query function name. Expecting \"query\"")))
  else if args.length > 2 then
    (stub, Outcome.ret none (some (GoError.new
      "Incorrect number of arguments. Expecting name of the account holder followed by the bank name")))
  else
    match indexArgs args 0 with
    | none => (stub, Outcome.panic)
    | some A =>
      let sel : Option (String × String) :=
        if args.length = 2 then
          match indexArgs args 1 with
          | none => none
          | some B => some (A ++ "_" ++ B, "Amount")
        else some (A, "List")
      match sel with
      | none => (stub, Outcome.panic)
      | some (key, keyName) =>
        match GetState stub key with
        | (stub1, _, some _) =>
          (stub1, Outcome.ret none (some (GoError.new
            ("\x7b\"Error\":\"Failed to get state for " ++ key ++ "\"\x7d"))))
        | (stub1, none, none) =>
          (stub1, Outcome.ret none (some (GoError.new
            ("\x7b\"Error\":\"Nil amount for " ++ key ++ "\"\x7d"))))
        | (stub1, some Avalbytes, none) =>
          (stub1, Outcome.ret (some ("\x7b\"Name\":\"" ++ key ++ "\",\"" ++ keyName ++ "\":\""
            ++ Avalbytes ++ "\"\x7d")) none)

/-! ## Vocabulary of the statements -/

/-- The arguments `[B1, s1, ..., Bn, sn]` that follow the account name in a call of `Init`,
from the list of (bank name, amount string) pairs. -/
def flatPairs : List (String × String) → List String
  | [] => []
  | p :: rest => p.1 :: p.2 :: flatPairs rest

/-- The `PutState` call `Init` issues for a pair whose amount parses: the Holding key and the
decimal string of the parsed amount. -/
def holdingPut (A : String) (p : String × String) : String × String :=
  (A ++ "_" ++ p.1, Itoa (Atoi p.2).1)

/-- Ledger content after the Holding writes of the given pairs, in order. -/
def holdingWrites (A : String) (pairs : List (String × String))
    (state : String → Option String) : String → Option String :=
  pairs.foldl (fun st p => writeState st (holdingPut A p).1 (holdingPut A p).2) state

/-- The stub after the Holding writes of the given pairs have been issued and have succeeded. -/
def afterHoldings (A : String) (pairs : List (String × String)) (stub : ChaincodeStub) :
    ChaincodeStub :=
  { stub with puts := stub.puts ++ pairs.map (holdingPut A),
              state := holdingWrites A pairs stub.state }

/-- The bank list `Init` has built after the given pairs, starting from `bankList`: for
each pair a comma is appended when the list built so far is not empty, then the bank name. -/
def bankListAfter (pairs : List (String × String)) (bankList : String) : String :=
  pairs.foldl (fun bl p => (if bl ≠ "" then bl ++ "," else bl) ++ p.1) bankList

/-- The loop of `Init` phrased over the pairs that remain to be processed. -/
def initPairs (A : String) : List (String × String) → ChaincodeStub → String →
    ChaincodeStub × (Outcome ⊕ String)
  | [], stub, bankList => (stub, Sum.inr bankList)
  | p :: rest, stub, bankList =>
    match Atoi p.2 with
    | (_, some _) =>
      (stub, Sum.inl (Outcome.ret none
        (some (GoError.new "Expecting integer value for asset holding"))))
    | (Aval, none) =>
      match PutState stub (A ++ "_" ++ p.1) (Itoa Aval) with
      | (stub1, some err) => (stub1, Sum.inl (Outcome.ret none (some err)))
      | (stub1, none) =>
        initPairs A rest stub1 ((if bankList ≠ "" then bankList ++ "," else bankList) ++ p.1)

/-- The two argument-count errors of `Init`. -/
def isInitArgumentCountError (out : Outcome) : Prop :=
  out = Outcome.ret none (some (GoError.new
    "Expecting odd number of arguments: [name, bank1, amount1, bank2, amount2, ......]")) ∨
  out = Outcome.ret none (some (GoError.new
    "Too few arguments. Expecting at least 3 (at least one bank account)"))

instance (out : Outcome) : Decidable (isInitArgumentCountError out) := by
  unfold isInitArgumentCountError; exact inferInstance

/-- The puts a call of `Init` issues when nothing fails: the Holding writes in order, then
the Account write of the bank list. -/
def initPuts (A : String) (pairs : List (String × String)) : List (String × String) :=
  pairs.map (holdingPut A) ++ [(A, bankListAfter pairs "")]

/-- The argument-count error of `Invoke`. -/
def invokeArgumentCountError : Outcome :=
  Outcome.ret none (some (GoError.new "Incorrect number of arguments. Expecting 4"))

/-- The balance `Invoke` writes back, from the method, the balance `Aval` it has read and the
amount `X`: the statements between the two `strconv.Atoi` calls and the `PutState` call. -/
def adjustedBalance (method : String) (Aval X : Int) : Int :=
  if method = "deposit" then wrapInt (Aval + X)
  else if method = "withdraw" then
    if wrapInt (Aval - X) > 0 then wrapInt (Aval - X) else 0
  else Aval

/-- The balance `Invoke` reads under a key: the value of `strconv.Atoi` on the stored bytes
(on the empty string when the key is absent), whatever its error. -/
def readBalance (state : String → Option String) (key : String) : Int :=
  (Atoi ((state key).getD "")).1

/-- A stub over the empty ledger whose calls all succeed. -/
def emptyStub : ChaincodeStub :=
  { state := fun _ => none, putErr := fun _ => none, getErr := fun _ => none,
    puts := [], gets := [] }

/-- The empty ledger behind a stub whose put number `m` (counted from 0) fails with the
error code `c`, every other call succeeding. -/
def failingStub (m c : Nat) : ChaincodeStub :=
  { state := fun _ => none, putErr := fun n => if n = m then some c else none,
    getErr := fun _ => none, puts := [], gets := [] }

/-- The Holding key of an account and a bank: the expression `A + "_" + B` of `Init`,
`Invoke` and `Query`. -/
def holdingKey (A B : String) : String := A ++ "_" ++ B

/-- The response `Query` builds for a key, its label and the value read. -/
def queryPayload (key keyName value : String) : String :=
  "\x7b\"Name\":\"" ++ key ++ "\",\"" ++ keyName ++ "\":\"" ++ value ++ "\"\x7d"

/-- The outcome of `Query` for a key whose value is nil. -/
def queryNotFound (key : String) : Outcome :=
  Outcome.ret none (some (GoError.new ("\x7b\"Error\":\"Nil amount for " ++ key ++ "\"\x7d")))

/-- The outcome of `Query` for a function name other than query. -/
def queryInvalidFunction : Outcome :=
  Outcome.ret none (some (GoError.new "Invalid query function name. Expecting \"query\""))

/-- The outcome of `Query` for more than two arguments. -/
def queryArgumentCountError : Outcome :=
  Outcome.ret none (some (GoError.new
    "Incorrect number of arguments. Expecting name of the account holder followed by the bank name"))

/-- The stub after the calls `Invoke ["deposit", A, Itoa x, B]` for the amounts `xs`, issued
one after the other in the order of the list. -/
def depositAll (stub : ChaincodeStub) (A B : String) (xs : List Int) : ChaincodeStub :=
  xs.foldl (fun st x => (Invoke st ["deposit", A, Itoa x, B]).1) stub

/-- A ledger that holds `value` under `key` and nothing else, behind a stub whose calls all
succeed. -/
def storeWith (key value : String) : ChaincodeStub :=
  { state := fun k => if k = key then some value else none, putErr := fun _ => none,
    getErr := fun _ => none, puts := [], gets := [] }

/-! ## The loop of `Init` -/

theorem flatPairs_length (pairs : List (String × String)) :
    (flatPairs pairs).length = 2 * pairs.length := by
  induction pairs with
  | nil => rfl
  | cons p rest ih => simp [flatPairs, ih]; omega

/-- Every argument list of even length is the flattening of a list of pairs. -/
theorem exists_flatPairs : ∀ l : List String, l.length % 2 = 0 → ∃ pairs, l = flatPairs pairs
  | [], _ => ⟨[], rfl⟩
  | [_], h => by simp at h
  | x :: y :: rest, h => by
    obtain ⟨ps, hps⟩ := exists_flatPairs rest (by simp at h; omega)
    exact ⟨(x, y) :: ps, by simp [flatPairs, hps]⟩

/-- Every argument list of odd length at least 3 is an account name followed by the
flattening of a non-empty list of pairs. -/
theorem exists_account_flatPairs (args : List String) (hodd : args.length % 2 = 1)
    (hlen : 3 ≤ args.length) : ∃ A pairs, pairs ≠ [] ∧ args = A :: flatPairs pairs := by
  match args, hodd, hlen with
  | A :: rest, hodd, hlen =>
    obtain ⟨ps, hps⟩ := exists_flatPairs rest (by simp at hodd; omega)
    refine ⟨A, ps, ?_, by rw [hps]⟩
    rintro rfl
    simp [hps, flatPairs] at hlen

theorem indexArgs_at_length (pre : List String) (x : String) (rest : List String) :
    indexArgs (pre ++ x :: rest) pre.length = some x := by
  unfold indexArgs
  rw [List.getElem?_append_right (Nat.le_refl _)]
  simp

theorem indexArgs_at_length_succ (pre : List String) (x y : String) (rest : List String) :
    indexArgs (pre ++ x :: y :: rest) (pre.length + 1) = some y := by
  have h := indexArgs_at_length (pre ++ [x]) y rest
  simpa using h

/-- With enough iterations allowed, the index loop over `pre ++ flatPairs pairs` started at
index `pre.length` is the loop over the pairs. -/
theorem initLoop_eq_initPairs (A : String) (pairs : List (String × String)) :
    ∀ (pre : List String) (fuel : Nat) (stub : ChaincodeStub) (bankList : String),
      pairs.length < fuel →
      initLoop fuel stub (pre ++ flatPairs pairs) A pre.length bankList
        = initPairs A pairs stub bankList := by
  induction pairs with
  | nil =>
    intro pre fuel stub bankList hfuel
    obtain ⟨f, rfl⟩ : ∃ f, fuel = f + 1 := ⟨fuel - 1, by simp at hfuel; omega⟩
    simp [initLoop, initPairs, flatPairs]
  | cons p rest ih =>
    intro pre fuel stub bankList hfuel
    obtain ⟨f, rfl⟩ : ∃ f, fuel = f + 1 := ⟨fuel - 1, by simp at hfuel; omega⟩
    have hlen : pre.length < (pre ++ flatPairs (p :: rest)).length := by
      simp [flatPairs]
    have hrec : ∀ (stub1 : ChaincodeStub) (bl : String),
        initLoop f stub1 (pre ++ flatPairs (p :: rest)) A (pre.length + 2) bl
          = initPairs A rest stub1 bl := by
      intro stub1 bl
      have h := ih (pre ++ [p.1, p.2]) f stub1 bl (by simp at hfuel; omega)
      simpa [flatPairs] using h
    rw [initLoop, if_pos hlen]
    simp only [flatPairs, indexArgs_at_length, indexArgs_at_length_succ, initPairs]
    rcases hA : Atoi p.2 with ⟨v, _ | e⟩
    · simp only
      rcases hP : PutState stub (A ++ "_" ++ p.1) (Itoa v) with ⟨stub1, _ | err⟩
      · simp only
        have h := hrec stub1 ((if bankList ≠ "" then bankList ++ "," else bankList) ++ p.1)
        simpa [flatPairs] using h
      · simp only
    · simp only

/-- The method `Init` on an account name followed by at least one pair. -/
theorem Init_eq_initPairs (stub : ChaincodeStub) (A : String)
    (pairs : List (String × String)) (hne : pairs ≠ []) :
    Init stub (A :: flatPairs pairs) =
      match initPairs A pairs stub "" with
      | (stub1, Sum.inl out) => (stub1, out)
      | (stub1, Sum.inr bankList) =>
        match PutState stub1 A bankList with
        | (stub2, some err) => (stub2, Outcome.ret none (some err))
        | (stub2, none) => (stub2, Outcome.ret none none) := by
  have hpos : 0 < pairs.length := List.length_pos.mpr hne
  have hlen : (A :: flatPairs pairs).length = 2 * pairs.length + 1 := by
    simp [flatPairs_length]
  have hloop := initLoop_eq_initPairs A pairs [A] (A :: flatPairs pairs).length stub ""
    (by rw [hlen]; omega)
  have h1 : ¬ ((A :: flatPairs pairs).length % 2 ≠ 1) := by rw [hlen]; omega
  have h2 : ¬ ((A :: flatPairs pairs).length ≤ 1) := by rw [hlen]; omega
  have h0 : indexArgs (A :: flatPairs pairs) 0 = some A := by simp [indexArgs]
  have hloop1 : initLoop (A :: flatPairs pairs).length stub (A :: flatPairs pairs) A 1 ""
      = initPairs A pairs stub "" := by simpa using hloop
  rw [Init, if_neg h1, if_neg h2, h0]
  simp only [hloop1]

/-! ## Facts about keys and ledger writes -/

theorem holdingKey_ne_account (A B : String) : A ++ "_" ++ B ≠ A := by
  intro h
  have hl := congrArg String.length h
  have h1 : "_".length = 1 := rfl
  simp [h1] at hl
  omega

theorem holdingKey_inj (A B C : String) (h : A ++ "_" ++ B = A ++ "_" ++ C) : B = C := by
  have hd := congrArg String.data h
  simp at hd
  exact String.ext hd

theorem writeState_same (state : String → Option String) (key value : String) :
    writeState state key value key = some value := by
  simp [writeState]

theorem writeState_other (state : String → Option String) (key value k : String)
    (h : k ≠ key) : writeState state key value k = state k := by
  simp [writeState, h]

theorem holdingWrites_cons (A : String) (p : String × String)
    (rest : List (String × String)) (state : String → Option String) :
    holdingWrites A (p :: rest) state
      = holdingWrites A rest (writeState state (holdingPut A p).1 (holdingPut A p).2) := rfl

/-- A key that is no Holding key of the pairs keeps its value through their writes. -/
theorem holdingWrites_frame (A : String) (pairs : List (String × String)) :
    ∀ (state : String → Option String) (k : String),
      (∀ p ∈ pairs, k ≠ A ++ "_" ++ p.1) → holdingWrites A pairs state k = state k := by
  induction pairs with
  | nil => intro state k _; rfl
  | cons p rest ih =>
    intro state k hk
    rw [holdingWrites_cons, ih _ k (fun q hq => hk q (List.mem_cons_of_mem _ hq))]
    exact writeState_other _ _ _ _ (hk p (List.mem_cons_self _ _))

/-- After the Holding writes of the pairs, the Holding of a bank that occurs among them holds
the amount of its last occurrence. -/
theorem holdingWrites_last (A : String) (pairs : List (String × String)) :
    ∀ (state : String → Option String) (B : String), (∃ s, (B, s) ∈ pairs) →
      ∃ j s1, pairs[j]? = some (B, s1) ∧
        (∀ (j1 : Nat) (s2 : String), j < j1 → pairs[j1]? ≠ some (B, s2)) ∧
        holdingWrites A pairs state (A ++ "_" ++ B) = some (Itoa (Atoi s1).1) := by
  induction pairs with
  | nil => intro state B h; obtain ⟨s, hs⟩ := h; simp at hs
  | cons p rest ih =>
    intro state B h
    by_cases hrest : ∃ s, (B, s) ∈ rest
    · obtain ⟨j, s1, hj, hlast, hval⟩ := ih (writeState state (holdingPut A p).1
        (holdingPut A p).2) B hrest
      refine ⟨j + 1, s1, by simpa using hj, ?_, by rw [holdingWrites_cons]; exact hval⟩
      intro j1 s2 hlt
      obtain ⟨j2, rfl⟩ : ∃ j2, j1 = j2 + 1 := ⟨j1 - 1, by omega⟩
      simpa using hlast j2 s2 (by omega)
    · obtain ⟨s, hs⟩ := h
      have hp : p = (B, s) := by
        rcases List.mem_cons.mp hs with h1 | h1
        · exact h1.symm
        · exact absurd ⟨s, h1⟩ hrest
      refine ⟨0, s, by simp [hp], ?_, ?_⟩
      · intro j1 s2 hlt hj1
        obtain ⟨j2, rfl⟩ : ∃ j2, j1 = j2 + 1 := ⟨j1 - 1, by omega⟩
        simp at hj1
        exact hrest ⟨s2, List.getElem?_mem hj1⟩
      · rw [holdingWrites_cons, holdingWrites_frame]
        · subst hp; simp [holdingPut, writeState]
        · intro q hq heq
          have hB : B = q.1 := holdingKey_inj A B q.1 heq
          exact hrest ⟨q.2, by rw [hB]; exact hq⟩

theorem PutState_ok (stub : ChaincodeStub) (key value : String)
    (h : stub.putErr stub.puts.length = none) :
    PutState stub key value =
      ({ stub with puts := stub.puts ++ [(key, value)],
                   state := writeState stub.state key value }, none) := by
  simp [PutState, h]

theorem PutState_fail (stub : ChaincodeStub) (key value : String) (c : Nat)
    (h : stub.putErr stub.puts.length = some c) :
    PutState stub key value =
      ({ stub with puts := stub.puts ++ [(key, value)] }, some (GoError.stub c)) := by
  simp [PutState, h]

/-- An error returned by `PutState` is the error of the stub. -/
theorem PutState_error_is_stub (stub : ChaincodeStub) (key value : String)
    (stub1 : ChaincodeStub) (err : GoError)
    (h : PutState stub key value = (stub1, some err)) : ∃ c, err = GoError.stub c := by
  unfold PutState at h
  split at h
  · rename_i c _
    simp at h
    exact ⟨c, h.2.symm⟩
  · simp at h

theorem afterHoldings_nil (A : String) (stub : ChaincodeStub) :
    afterHoldings A [] stub = stub := by
  cases stub; simp [afterHoldings, holdingWrites]

/-- The loop of `Init` runs through a prefix of pairs whose amounts parse and whose puts
succeed, issuing exactly their Holding writes, and goes on with the remaining pairs. -/
theorem initPairs_append (A : String) (good : List (String × String)) :
    ∀ (rest : List (String × String)) (stub : ChaincodeStub) (bankList : String),
      (∀ p ∈ good, (Atoi p.2).2 = none) →
      (∀ j, j < good.length → stub.putErr (stub.puts.length + j) = none) →
      initPairs A (good ++ rest) stub bankList
        = initPairs A rest (afterHoldings A good stub) (bankListAfter good bankList) := by
  induction good with
  | nil => intro rest stub bankList _ _; simp [afterHoldings_nil, bankListAfter]
  | cons p good ih =>
    intro rest stub bankList hparse hput
    have hA : Atoi p.2 = ((Atoi p.2).1, none) := by
      have h := hparse p (List.mem_cons_self _ _)
      rcases hq : Atoi p.2 with ⟨v, e⟩
      rw [hq] at h
      simp at h
      simp [h]
    have hP := PutState_ok stub (A ++ "_" ++ p.1) (Itoa (Atoi p.2).1)
      (by simpa using hput 0 (by simp))
    rw [List.cons_append, initPairs, hA]
    simp only [hP]
    rw [ih rest _ _ (fun q hq => hparse q (List.mem_cons_of_mem _ hq))]
    · congr 1
      simp [afterHoldings, holdingWrites, holdingPut]
    · intro j hj
      have h := hput (j + 1) (by simpa using hj)
      simpa [Nat.add_assoc, Nat.add_comm 1 j] using h

/-- The method `Init` when every amount parses and every put succeeds. -/
theorem Init_success (stub : ChaincodeStub) (A : String) (pairs : List (String × String))
    (hne : pairs ≠ []) (hput : ∀ n, stub.putErr n = none)
    (hparse : ∀ p ∈ pairs, (Atoi p.2).2 = none) :
    Init stub (A :: flatPairs pairs) =
      ({ stub with puts := stub.puts ++ initPuts A pairs,
                   state := writeState (holdingWrites A pairs stub.state) A
                     (bankListAfter pairs "") }, Outcome.ret none none) := by
  have h := initPairs_append A pairs [] stub "" hparse (fun j _ => hput _)
  rw [List.append_nil] at h
  rw [Init_eq_initPairs stub A pairs hne, h, initPairs]
  simp only
  rw [PutState_ok _ _ _ (by simpa [afterHoldings] using hput _)]
  simp [afterHoldings, initPuts]

/-- The body of the loop of `Init` never produces an argument-count error. -/
theorem initLoop_not_argumentCount (fuel : Nat) :
    ∀ (stub : ChaincodeStub) (args : List String) (A : String) (i : Nat) (bankList : String)
      (stub1 : ChaincodeStub) (out : Outcome),
      initLoop fuel stub args A i bankList = (stub1, Sum.inl out) →
      ¬ isInitArgumentCountError out := by
  induction fuel with
  | zero =>
    intro stub args A i bankList stub1 out h
    simp [initLoop] at h
    rw [← h.2]; decide
  | succ f ih =>
    intro stub args A i bankList stub1 out h
    rw [initLoop] at h
    split at h
    · split at h
      · simp at h; rw [← h.2]; decide
      · split at h
        · simp at h; rw [← h.2]; decide
        · split at h
          · simp at h; rw [← h.2]; decide
          · rename_i Aval hA
            unfold PutState at h
            split at h
            · simp at h; rw [← h.2]
              simp [isInitArgumentCountError]
            · simp only at h
              exact ih _ _ _ _ _ _ _ h
    · simp at h

/-! ## Claims about `Init` -/

/-- C1: when every amount string parses and every put succeeds, `Init` on
`[A, B1, s1, ..., Bn, sn]` (n at least 1) returns success (no error, no panic); afterwards the
key `A_Bi` of every supplied bank holds the decimal string of the amount of the last pair that
names that bank, and every key other than `A` and the keys `A_Bi` holds its former value. -/
theorem Init_holdings_postcondition (stub : ChaincodeStub) (A : String)
    (pairs : List (String × String)) (hne : pairs ≠ [])
    (hput : ∀ n, stub.putErr n = none)
    (hparse : ∀ p ∈ pairs, (Atoi p.2).2 = none) :
    (Init stub (A :: flatPairs pairs)).2 = Outcome.ret none none ∧
    (∀ (i : Nat) (B s : String), pairs[i]? = some (B, s) →
      ∃ j s1, pairs[j]? = some (B, s1) ∧
        (∀ (j1 : Nat) (s2 : String), j < j1 → pairs[j1]? ≠ some (B, s2)) ∧
        (Init stub (A :: flatPairs pairs)).1.state (A ++ "_" ++ B)
          = some (Itoa (Atoi s1).1)) ∧
    (∀ k : String, k ≠ A → (∀ p ∈ pairs, k ≠ A ++ "_" ++ p.1) →
      (Init stub (A :: flatPairs pairs)).1.state k = stub.state k) := by
  rw [Init_success stub A pairs hne hput hparse]
  refine ⟨rfl, ?_, ?_⟩
  · intro i B s hi
    obtain ⟨j, s1, hj, hlast, hval⟩ :=
      holdingWrites_last A pairs stub.state B ⟨s, List.getElem?_mem hi⟩
    refine ⟨j, s1, hj, hlast, ?_⟩
    simp only
    rw [writeState_other _ _ _ _ (holdingKey_ne_account A B)]
    exact hval
  · intro k hkA hk
    simp only
    rw [writeState_other _ _ _ _ hkA]
    exact holdingWrites_frame A pairs stub.state k hk

/-- Witness of C1: `Init` on alice with bofa 100, chase 50 over the empty ledger. -/
theorem Init_holdings_postcondition_witness :
    (Init emptyStub ("alice" :: flatPairs [("bofa", "100"), ("chase", "50")])).2
      = Outcome.ret none none ∧
    (∀ (i : Nat) (B s : String), [("bofa", "100"), ("chase", "50")][i]? = some (B, s) →
      ∃ j s1, [("bofa", "100"), ("chase", "50")][j]? = some (B, s1) ∧
        (∀ (j1 : Nat) (s2 : String), j < j1 →
          [("bofa", "100"), ("chase", "50")][j1]? ≠ some (B, s2)) ∧
        (Init emptyStub ("alice" :: flatPairs [("bofa", "100"), ("chase", "50")])).1.state
          ("alice" ++ "_" ++ B) = some (Itoa (Atoi s1).1)) ∧
    (∀ k : String, k ≠ "alice" →
      (∀ p ∈ [("bofa", "100"), ("chase", "50")], k ≠ "alice" ++ "_" ++ p.1) →
      (Init emptyStub ("alice" :: flatPairs [("bofa", "100"), ("chase", "50")])).1.state k
        = emptyStub.state k) :=
  Init_holdings_postcondition emptyStub "alice" [("bofa", "100"), ("chase", "50")]
    (by decide) (fun _ => rfl) (by decide)

/-- C2, evaluated at a failing input: with an empty first bank name `Init` stores the bank
list `chase` under the Account key, not the comma-joined list `,chase` of the two names. -/
theorem Init_bankList_empty_name :
    (Init emptyStub ["alice", "", "100", "chase", "50"]).2 = Outcome.ret none none ∧
    (Init emptyStub ["alice", "", "100", "chase", "50"]).1.state "alice" = some "chase" ∧
    ",".intercalate ["", "chase"] = ",chase" := by
  decide

/-- Once the bank list is not empty, every further pair appends a comma and its bank name. -/
theorem bankListAfter_of_ne_empty (pairs : List (String × String)) :
    ∀ bankList : String, bankList ≠ "" →
      bankListAfter pairs bankList
        = String.intercalate.go bankList "," (pairs.map (fun p => p.1)) := by
  induction pairs with
  | nil => intro bankList _; rfl
  | cons p rest ih =>
    intro bankList hne
    have hne1 : bankList ++ "," ++ p.1 ≠ "" := by
      intro h
      have hl := congrArg String.length h
      have h1 : ",".length = 1 := rfl
      have h0 : "".length = 0 := rfl
      simp [h1, h0] at hl
    have hstep : bankListAfter (p :: rest) bankList
        = bankListAfter rest (bankList ++ "," ++ p.1) := by
      simp [bankListAfter, hne]
    rw [hstep, ih _ hne1]
    rfl

/-- When every amount parses, every put succeeds and the first bank name is not empty, the
value `Init` stores under the Account key is the bank names joined with commas. -/
theorem Init_bankList_of_first_ne_empty (stub : ChaincodeStub) (A : String)
    (p : String × String) (rest : List (String × String))
    (hput : ∀ n, stub.putErr n = none)
    (hparse : ∀ q ∈ p :: rest, (Atoi q.2).2 = none) (hfirst : p.1 ≠ "") :
    (Init stub (A :: flatPairs (p :: rest))).1.state A
      = some (",".intercalate ((p :: rest).map (fun q => q.1))) := by
  rw [Init_success stub A (p :: rest) (by simp) hput hparse]
  simp only [writeState_same]
  have hstep : bankListAfter (p :: rest) "" = bankListAfter rest p.1 := by
    simp [bankListAfter]
  rw [hstep, bankListAfter_of_ne_empty rest p.1 hfirst]
  rfl

/-- C3: `Init` on an argument list of even length or of length at most 1 returns an
argument-count error and leaves the stub as it was (no put is issued); on an argument list
of odd length at least 3 it does not return an argument-count error. -/
theorem Init_argument_count (stub : ChaincodeStub) (args : List String) :
    ((args.length % 2 = 0 ∨ args.length ≤ 1) →
      isInitArgumentCountError (Init stub args).2 ∧ (Init stub args).1 = stub) ∧
    ((args.length % 2 = 1 ∧ 3 ≤ args.length) →
      ¬ isInitArgumentCountError (Init stub args).2) := by
  constructor
  · intro h
    unfold Init
    by_cases h1 : args.length % 2 ≠ 1
    · rw [if_pos h1]; exact ⟨Or.inl rfl, rfl⟩
    · have h2 : args.length ≤ 1 := by omega
      rw [if_neg h1, if_pos h2]; exact ⟨Or.inr rfl, rfl⟩
  · intro h
    unfold Init
    rw [if_neg (by omega), if_neg (by omega)]
    split
    · simp [isInitArgumentCountError]
    · split
      · rename_i hloop
        exact initLoop_not_argumentCount _ _ _ _ _ _ _ _ hloop
      · split
        · rename_i hP
          obtain ⟨c, rfl⟩ := PutState_error_is_stub _ _ _ _ _ hP
          simp [isInitArgumentCountError]
        · simp [isInitArgumentCountError]

/-- Witness of C3: the even-length list alice, bofa is refused with an argument-count error
and nothing is put; the list alice, bofa, 100 is not refused. -/
theorem Init_argument_count_witness :
    (isInitArgumentCountError (Init emptyStub ["alice", "bofa"]).2 ∧
      (Init emptyStub ["alice", "bofa"]).1 = emptyStub) ∧
    ¬ isInitArgumentCountError (Init emptyStub ["alice", "bofa", "100"]).2 :=
  ⟨(Init_argument_count emptyStub ["alice", "bofa"]).1 (by decide),
   (Init_argument_count emptyStub ["alice", "bofa", "100"]).2 (by decide)⟩

/-- C4: when the puts succeed and the first amount string that does not parse belongs to the
pair after the pairs `good`, `Init` returns the invalid-amount error; the puts it has issued
are exactly the Holding writes of `good`, the ledger is the initial one with those writes
applied, and the Account key `A` still holds its initial value. -/
theorem Init_invalid_amount (stub : ChaincodeStub) (A : String)
    (good rest : List (String × String)) (bad : String × String)
    (hput : ∀ n, stub.putErr n = none)
    (hgood : ∀ p ∈ good, (Atoi p.2).2 = none)
    (hbad : (Atoi bad.2).2 ≠ none) :
    (Init stub (A :: flatPairs (good ++ bad :: rest))).2
      = Outcome.ret none (some (GoError.new "Expecting integer value for asset holding")) ∧
    (Init stub (A :: flatPairs (good ++ bad :: rest))).1.puts
      = stub.puts ++ good.map (holdingPut A) ∧
    (Init stub (A :: flatPairs (good ++ bad :: rest))).1.state
      = holdingWrites A good stub.state ∧
    (Init stub (A :: flatPairs (good ++ bad :: rest))).1.state A = stub.state A := by
  have hrun := initPairs_append A good (bad :: rest) stub "" hgood (fun j _ => hput _)
  have hstep : initPairs A (bad :: rest) (afterHoldings A good stub) (bankListAfter good "")
      = (afterHoldings A good stub, Sum.inl (Outcome.ret none
          (some (GoError.new "Expecting integer value for asset holding")))) := by
    rw [initPairs]
    rcases hq : Atoi bad.2 with ⟨v, _ | e⟩
    · rw [hq] at hbad; simp at hbad
    · rfl
  rw [Init_eq_initPairs stub A _ (by simp), hrun, hstep]
  refine ⟨rfl, rfl, rfl, ?_⟩
  exact holdingWrites_frame A good stub.state A
    (fun p _ h => holdingKey_ne_account A p.1 h.symm)

/-- Witness of C4: alice, bofa, notanumber over the empty ledger. -/
theorem Init_invalid_amount_witness :
    (Init emptyStub ("alice" :: flatPairs ([] ++ ("bofa", "notanumber") :: []))).2
      = Outcome.ret none (some (GoError.new "Expecting integer value for asset holding")) ∧
    (Init emptyStub ("alice" :: flatPairs ([] ++ ("bofa", "notanumber") :: []))).1.puts
      = emptyStub.puts ++ [].map (holdingPut "alice") ∧
    (Init emptyStub ("alice" :: flatPairs ([] ++ ("bofa", "notanumber") :: []))).1.state
      = holdingWrites "alice" [] emptyStub.state ∧
    (Init emptyStub ("alice" :: flatPairs ([] ++ ("bofa", "notanumber") :: []))).1.state "alice"
      = emptyStub.state "alice" :=
  Init_invalid_amount emptyStub "alice" [] [] ("bofa", "notanumber")
    (fun _ => rfl) (by decide) (by decide)

/-- C5: when every amount parses and the put number `m` issued by `Init` (counted from 0) is
the first one to fail, `Init` returns the error of the stub; the puts it has issued are the
first `m + 1` of the puts of a run without failure (none after the failing one), the ledger
is the initial one with the first `m` Holding writes applied, and the Account key `A` still
holds its initial value. -/
theorem Init_store_failure (stub : ChaincodeStub) (A : String)
    (pairs : List (String × String)) (m c : Nat) (hne : pairs ≠ [])
    (hparse : ∀ p ∈ pairs, (Atoi p.2).2 = none)
    (hm : m ≤ pairs.length)
    (hok : ∀ j, j < m → stub.putErr (stub.puts.length + j) = none)
    (hfail : stub.putErr (stub.puts.length + m) = some c) :
    (Init stub (A :: flatPairs pairs)).2 = Outcome.ret none (some (GoError.stub c)) ∧
    (Init stub (A :: flatPairs pairs)).1.puts = stub.puts ++ (initPuts A pairs).take (m + 1) ∧
    (Init stub (A :: flatPairs pairs)).1.state = holdingWrites A (pairs.take m) stub.state ∧
    (Init stub (A :: flatPairs pairs)).1.state A = stub.state A := by
  have hframe : holdingWrites A (pairs.take m) stub.state A = stub.state A :=
    holdingWrites_frame A _ stub.state A (fun p _ h => holdingKey_ne_account A p.1 h.symm)
  rw [Init_eq_initPairs stub A pairs hne]
  rcases Nat.lt_or_ge m pairs.length with hlt | hge
  · -- the failing put is a Holding write
    obtain ⟨p, rest, hdrop⟩ : ∃ p rest, pairs.drop m = p :: rest := by
      cases hd : pairs.drop m with
      | nil => simp at hd; omega
      | cons p rest => exact ⟨p, rest, rfl⟩
    have hsplit : pairs = pairs.take m ++ p :: rest := by
      rw [← hdrop, List.take_append_drop]
    have hlen : (pairs.take m).length = m := by simp; omega
    have hrun := initPairs_append A (pairs.take m) (p :: rest) stub ""
      (fun q hq => hparse q (List.mem_of_mem_take hq))
      (fun j hj => hok j (by omega))
    rw [← hsplit] at hrun
    have hA : Atoi p.2 = ((Atoi p.2).1, none) := by
      have h := hparse p (by rw [hsplit]; simp)
      rcases hq : Atoi p.2 with ⟨v, e⟩
      rw [hq] at h
      simp at h
      simp [h]
    have hP := PutState_fail (afterHoldings A (pairs.take m) stub) (A ++ "_" ++ p.1)
      (Itoa (Atoi p.2).1) c (by
        show stub.putErr ((stub.puts ++ (pairs.take m).map (holdingPut A)).length) = some c
        rw [List.length_append, List.length_map, hlen]; exact hfail)
    have hputs : (initPuts A pairs).take (m + 1)
        = (pairs.take m).map (holdingPut A) ++ [holdingPut A p] := by
      have h1 : initPuts A pairs = ((pairs.take m).map (holdingPut A) ++ [holdingPut A p])
          ++ (rest.map (holdingPut A) ++ [(A, bankListAfter pairs "")]) := by
        unfold initPuts
        nth_rewrite 1 [hsplit]
        simp
      rw [h1, List.take_left' (by rw [List.length_append, List.length_map, hlen]; rfl)]
    rw [hrun, initPairs, hA]
    simp only [hP]
    refine ⟨trivial, ?_, rfl, hframe⟩
    simp [afterHoldings, hputs, holdingPut]
  · -- the failing put is the Account write
    have hmeq : m = pairs.length := by omega
    subst hmeq
    have hrun := initPairs_append A pairs [] stub "" hparse (fun j hj => hok j hj)
    rw [List.append_nil] at hrun
    have hP := PutState_fail (afterHoldings A pairs stub) A (bankListAfter pairs "") c
      (by simpa [afterHoldings] using hfail)
    have hputs : (initPuts A pairs).take (pairs.length + 1) = initPuts A pairs :=
      List.take_of_length_le (by simp [initPuts])
    rw [hrun, initPairs]
    simp only [hP]
    rw [List.take_length] at hframe ⊢
    refine ⟨trivial, ?_, rfl, hframe⟩
    simp [afterHoldings, hputs, initPuts]

/-- Witness of C5: with alice, bofa 100, chase 50 and a stub whose second put fails, the
Holding of bofa is written, the put for chase is issued and fails, nothing follows. -/
theorem Init_store_failure_witness :
    (Init (failingStub 1 7) ("alice" :: flatPairs [("bofa", "100"), ("chase", "50")])).2
      = Outcome.ret none (some (GoError.stub 7)) ∧
    (Init (failingStub 1 7) ("alice" :: flatPairs [("bofa", "100"), ("chase", "50")])).1.puts
      = (failingStub 1 7).puts
        ++ (initPuts "alice" [("bofa", "100"), ("chase", "50")]).take (1 + 1) ∧
    (Init (failingStub 1 7) ("alice" :: flatPairs [("bofa", "100"), ("chase", "50")])).1.state
      = holdingWrites "alice" ([("bofa", "100"), ("chase", "50")].take 1)
          (failingStub 1 7).state ∧
    (Init (failingStub 1 7) ("alice" :: flatPairs [("bofa", "100"), ("chase", "50")])).1.state
      "alice" = (failingStub 1 7).state "alice" :=
  Init_store_failure (failingStub 1 7) "alice" [("bofa", "100"), ("chase", "50")] 1 7
    (by decide) (by decide) (by decide)
    (fun j hj => by
      have h0 : j = 0 := by omega
      subst h0; rfl)
    rfl

/-! ## The method `Invoke` -/

theorem wrapInt_of_inIntRange (z : Int) (h : inIntRange z) : wrapInt z = z := by
  unfold inIntRange minInt maxInt intSize at h
  unfold wrapInt intSize
  norm_num at h ⊢
  omega

theorem wrapInt_inIntRange (z : Int) : inIntRange (wrapInt z) := by
  unfold inIntRange minInt maxInt wrapInt intSize
  norm_num
  omega

/-- The method `Invoke` on four arguments, by the outcome of its `GetState` call and of its
`PutState` call. -/
theorem Invoke_four (stub : ChaincodeStub) (method A s B : String) :
    Invoke stub [method, A, s, B] =
      match stub.getErr stub.gets.length with
      | some _ =>
        ({ stub with gets := stub.gets ++ [A ++ "_" ++ B] },
          Outcome.ret none (some (GoError.new "Failed to get state")))
      | none =>
        match stub.putErr stub.puts.length with
        | some c =>
          ({ stub with gets := stub.gets ++ [A ++ "_" ++ B],
                       puts := stub.puts ++ [(A ++ "_" ++ B, Itoa (adjustedBalance method
                         (readBalance stub.state (A ++ "_" ++ B)) (Atoi s).1))] },
            Outcome.ret none (some (GoError.stub c)))
        | none =>
          ({ stub with gets := stub.gets ++ [A ++ "_" ++ B],
                       puts := stub.puts ++ [(A ++ "_" ++ B, Itoa (adjustedBalance method
                         (readBalance stub.state (A ++ "_" ++ B)) (Atoi s).1))],
                       state := writeState stub.state (A ++ "_" ++ B) (Itoa (adjustedBalance
                         method (readBalance stub.state (A ++ "_" ++ B)) (Atoi s).1)) },
            Outcome.ret none none) := by
  simp only [Invoke, indexArgs, GetState, PutState, adjustedBalance, readBalance]
  rcases hg : stub.getErr stub.gets.length with _ | e
  · rcases hp : stub.putErr stub.puts.length with _ | c
    · simp [hp]
    · simp [hp]
  · simp

/-- An argument list of length four is four arguments. -/
theorem length_four (args : List String) (h : args.length = 4) :
    ∃ method A s B, args = [method, A, s, B] := by
  match args, h with
  | [method, A, s, B], _ => exact ⟨method, A, s, B, rfl⟩

/-- The method `Invoke` on four arguments when its get and its put succeed. -/
theorem Invoke_four_ok (stub : ChaincodeStub) (method A s B : String)
    (hget : stub.getErr stub.gets.length = none) (hput : stub.putErr stub.puts.length = none) :
    (Invoke stub [method, A, s, B]).2 = Outcome.ret none none ∧
    (Invoke stub [method, A, s, B]).1.state (A ++ "_" ++ B)
      = some (Itoa (adjustedBalance method (readBalance stub.state (A ++ "_" ++ B))
          (Atoi s).1)) := by
  rw [Invoke_four, hget, hput]
  exact ⟨rfl, writeState_same _ _ _⟩

/-- A successful `Invoke` on four arguments has written the adjusted balance. -/
theorem Invoke_four_of_success (stub : ChaincodeStub) (method A s B : String)
    (h : (Invoke stub [method, A, s, B]).2 = Outcome.ret none none) :
    (Invoke stub [method, A, s, B]).1.state (A ++ "_" ++ B)
      = some (Itoa (adjustedBalance method (readBalance stub.state (A ++ "_" ++ B))
          (Atoi s).1)) := by
  rw [Invoke_four] at h ⊢
  rcases hg : stub.getErr stub.gets.length with _ | e
  · rcases hp : stub.putErr stub.puts.length with _ | c
    · exact writeState_same _ _ _
    · rw [hg, hp] at h; simp at h
  · rw [hg] at h; simp at h

/-! ## Claims about `Invoke` -/

/-- C6, counterexample: after `Init` has stored the balance 9223372036854775807 for
alice at bofa, a deposit of 1 succeeds and leaves -9223372036854775808, which is not the
decimal string of 9223372036854775807 + 1. -/
theorem Invoke_deposit_overflow :
    Atoi "1" = (1, none) ∧
    (Init emptyStub ["alice", "bofa", "9223372036854775807"]).1.state "alice_bofa"
      = some "9223372036854775807" ∧
    Atoi "9223372036854775807" = (9223372036854775807, none) ∧
    (Invoke (Init emptyStub ["alice", "bofa", "9223372036854775807"]).1
      ["deposit", "alice", "1", "bofa"]).2 = Outcome.ret none none ∧
    (Invoke (Init emptyStub ["alice", "bofa", "9223372036854775807"]).1
      ["deposit", "alice", "1", "bofa"]).1.state "alice_bofa" = some "-9223372036854775808" ∧
    (Invoke (Init emptyStub ["alice", "bofa", "9223372036854775807"]).1
      ["deposit", "alice", "1", "bofa"]).1.state "alice_bofa"
      ≠ some (Itoa (9223372036854775807 + 1)) := by
  decide

/-- C6, amended: when get and put succeed, the amount parses as `X` and the value under
`A_B` parses as `c`, a deposit returns success and leaves under `A_B` the decimal string of
`c + X` wrapped into the 64-bit range of `int`; this is the decimal string of `c + X`
whenever `c + X` lies in that range. -/
theorem Invoke_deposit (stub : ChaincodeStub) (A s B v : String) (c X : Int)
    (hget : ∀ n, stub.getErr n = none) (hput : ∀ n, stub.putErr n = none)
    (hs : Atoi s = (X, none)) (hv : stub.state (A ++ "_" ++ B) = some v)
    (hc : Atoi v = (c, none)) :
    (Invoke stub ["deposit", A, s, B]).2 = Outcome.ret none none ∧
    (Invoke stub ["deposit", A, s, B]).1.state (A ++ "_" ++ B)
      = some (Itoa (wrapInt (c + X))) ∧
    (inIntRange (c + X) →
      (Invoke stub ["deposit", A, s, B]).1.state (A ++ "_" ++ B) = some (Itoa (c + X))) := by
  obtain ⟨h1, h2⟩ := Invoke_four_ok stub "deposit" A s B (hget _) (hput _)
  have hb : adjustedBalance "deposit" (readBalance stub.state (A ++ "_" ++ B)) (Atoi s).1
      = wrapInt (c + X) := by
    simp [adjustedBalance, readBalance, hv, hc, hs]
  rw [hb] at h2
  refine ⟨h1, h2, fun hr => ?_⟩
  rw [h2, wrapInt_of_inIntRange _ hr]

/-- Witness of C6: after `Init` with alice, bofa 100, a deposit of 30 leaves 130. -/
theorem Invoke_deposit_witness :
    (Invoke (Init emptyStub ["alice", "bofa", "100"]).1 ["deposit", "alice", "30", "bofa"]).2
      = Outcome.ret none none ∧
    (Invoke (Init emptyStub ["alice", "bofa", "100"]).1
      ["deposit", "alice", "30", "bofa"]).1.state ("alice" ++ "_" ++ "bofa")
      = some (Itoa (wrapInt (100 + 30))) ∧
    (inIntRange (100 + 30) →
      (Invoke (Init emptyStub ["alice", "bofa", "100"]).1
        ["deposit", "alice", "30", "bofa"]).1.state ("alice" ++ "_" ++ "bofa")
        = some (Itoa (100 + 30))) :=
  Invoke_deposit (Init emptyStub ["alice", "bofa", "100"]).1 "alice" "30" "bofa" "100" 100 30
    (fun _ => rfl) (fun _ => rfl) (by decide) (by decide) (by decide)

/-- C7, counterexample: after `Init` has stored the balance -2 for alice at bofa, a
withdrawal of 9223372036854775807 succeeds and leaves 9223372036854775807, although
-2 - 9223372036854775807 is not positive and the claim asks for 0. -/
theorem Invoke_withdraw_overflow :
    Atoi "9223372036854775807" = (9223372036854775807, none) ∧
    (Init emptyStub ["alice", "bofa", "-2"]).1.state "alice_bofa" = some "-2" ∧
    Atoi "-2" = (-2, none) ∧
    (Invoke (Init emptyStub ["alice", "bofa", "-2"]).1
      ["withdraw", "alice", "9223372036854775807", "bofa"]).2 = Outcome.ret none none ∧
    (Invoke (Init emptyStub ["alice", "bofa", "-2"]).1
      ["withdraw", "alice", "9223372036854775807", "bofa"]).1.state "alice_bofa"
      = some "9223372036854775807" ∧
    ¬ ((-2 : Int) - 9223372036854775807 > 0) ∧
    (Invoke (Init emptyStub ["alice", "bofa", "-2"]).1
      ["withdraw", "alice", "9223372036854775807", "bofa"]).1.state "alice_bofa"
      ≠ some (Itoa 0) := by
  decide

/-- C7, amended: when get and put succeed, the amount parses as `X` and the value under
`A_B` parses as `c`, a withdrawal returns success (never an error) and leaves under `A_B`
the decimal string of `w` when `w > 0` and of 0 otherwise, where `w` is `c - X` wrapped into
the 64-bit range of `int`; whenever `c - X` lies in that range this is `c - X` when
`c - X > 0` and 0 otherwise; in every case the balance left is not below zero. -/
theorem Invoke_withdraw (stub : ChaincodeStub) (A s B v : String) (c X : Int)
    (hget : ∀ n, stub.getErr n = none) (hput : ∀ n, stub.putErr n = none)
    (hs : Atoi s = (X, none)) (hv : stub.state (A ++ "_" ++ B) = some v)
    (hc : Atoi v = (c, none)) :
    (Invoke stub ["withdraw", A, s, B]).2 = Outcome.ret none none ∧
    (Invoke stub ["withdraw", A, s, B]).1.state (A ++ "_" ++ B)
      = some (Itoa (if wrapInt (c - X) > 0 then wrapInt (c - X) else 0)) ∧
    (inIntRange (c - X) →
      (Invoke stub ["withdraw", A, s, B]).1.state (A ++ "_" ++ B)
        = some (Itoa (if c - X > 0 then c - X else 0))) ∧
    (∃ b : Int, 0 ≤ b ∧
      (Invoke stub ["withdraw", A, s, B]).1.state (A ++ "_" ++ B) = some (Itoa b)) := by
  obtain ⟨h1, h2⟩ := Invoke_four_ok stub "withdraw" A s B (hget _) (hput _)
  have hb : adjustedBalance "withdraw" (readBalance stub.state (A ++ "_" ++ B)) (Atoi s).1
      = if wrapInt (c - X) > 0 then wrapInt (c - X) else 0 := by
    have hne : ¬ ("withdraw" = "deposit") := by decide
    simp [adjustedBalance, readBalance, hv, hc, hs, hne]
  rw [hb] at h2
  refine ⟨h1, h2, fun hr => ?_, ⟨_, ?_, h2⟩⟩
  · rw [h2, wrapInt_of_inIntRange _ hr]
  · split
    · omega
    · exact Int.le_refl 0

/-- Witness of C7: after `Init` with alice, bofa 130, a withdrawal of 200 leaves 0. -/
theorem Invoke_withdraw_witness :
    (Invoke (Init emptyStub ["alice", "bofa", "130"]).1
      ["withdraw", "alice", "200", "bofa"]).2 = Outcome.ret none none ∧
    (Invoke (Init emptyStub ["alice", "bofa", "130"]).1
      ["withdraw", "alice", "200", "bofa"]).1.state ("alice" ++ "_" ++ "bofa")
      = some (Itoa (if wrapInt (130 - 200) > 0 then wrapInt (130 - 200) else 0)) ∧
    (inIntRange (130 - 200) →
      (Invoke (Init emptyStub ["alice", "bofa", "130"]).1
        ["withdraw", "alice", "200", "bofa"]).1.state ("alice" ++ "_" ++ "bofa")
        = some (Itoa (if (130 : Int) - 200 > 0 then 130 - 200 else 0))) ∧
    (∃ b : Int, 0 ≤ b ∧
      (Invoke (Init emptyStub ["alice", "bofa", "130"]).1
        ["withdraw", "alice", "200", "bofa"]).1.state ("alice" ++ "_" ++ "bofa")
        = some (Itoa b)) :=
  Invoke_withdraw (Init emptyStub ["alice", "bofa", "130"]).1 "alice" "200" "bofa" "130" 130 200
    (fun _ => rfl) (fun _ => rfl) (by decide) (by decide) (by decide)

/-- C8: `Invoke` on an argument list whose length is not 4 returns the argument-count error
and leaves the stub as it was (no get and no put is issued); on an argument list of length 4
it does not return the argument-count error. -/
theorem Invoke_argument_count (stub : ChaincodeStub) (args : List String) :
    (args.length ≠ 4 →
      (Invoke stub args).2 = invokeArgumentCountError ∧ (Invoke stub args).1 = stub) ∧
    (args.length = 4 → (Invoke stub args).2 ≠ invokeArgumentCountError) := by
  constructor
  · intro h
    unfold Invoke
    rw [if_pos h]
    exact ⟨rfl, rfl⟩
  · intro h
    obtain ⟨method, A, s, B, rfl⟩ := length_four args h
    rw [Invoke_four]
    rcases stub.getErr stub.gets.length with _ | e
    · rcases stub.putErr stub.puts.length with _ | c
      · simp [invokeArgumentCountError]
      · simp [invokeArgumentCountError]
    · simp only [invokeArgumentCountError]
      decide

/-- Witness of C8: three arguments are refused without touching the stub, four are not. -/
theorem Invoke_argument_count_witness :
    ((Invoke emptyStub ["deposit", "alice", "30"]).2 = invokeArgumentCountError ∧
      (Invoke emptyStub ["deposit", "alice", "30"]).1 = emptyStub) ∧
    (Invoke emptyStub ["deposit", "alice", "30", "bofa"]).2 ≠ invokeArgumentCountError :=
  ⟨(Invoke_argument_count emptyStub ["deposit", "alice", "30"]).1 (by decide),
   (Invoke_argument_count emptyStub ["deposit", "alice", "30", "bofa"]).2 (by decide)⟩

theorem digitChar_ne_minus : ∀ d, d < 10 → digitChar d ≠ '-' := by decide

theorem formatBits_no_minus (fuel : Nat) :
    ∀ (n : Nat) (acc : List Char), (∀ ch ∈ acc, ch ≠ '-') →
      ∀ ch ∈ formatBits fuel n acc, ch ≠ '-' := by
  induction fuel with
  | zero => intro n acc hacc; simpa [formatBits] using hacc
  | succ f ih =>
    intro n acc hacc
    rw [formatBits]
    split
    · rename_i hlt
      intro ch hch
      rcases List.mem_cons.mp hch with h | h
      · rw [h]; exact digitChar_ne_minus n hlt
      · exact hacc ch h
    · apply ih
      intro ch hch
      rcases List.mem_cons.mp hch with h | h
      · rw [h]; exact digitChar_ne_minus _ (Nat.mod_lt _ (by decide))
      · exact hacc ch h

/-- The decimal string of a non-negative integer has no minus sign. -/
theorem Itoa_nonneg_no_minus (b : Int) (hb : 0 ≤ b) : '-' ∉ (Itoa b).data := by
  obtain ⟨n, rfl⟩ := Int.eq_ofNat_of_zero_le hb
  intro hmem
  have h : '-' ∈ formatBits (n + 1) n [] := by simpa [Itoa, formatUint] using hmem
  exact formatBits_no_minus (n + 1) n [] (by simp) '-' h rfl

/-- C9, counterexample: over the empty ledger a deposit of -5 succeeds and leaves -5 under
alice_bofa, which is the decimal string of no non-negative integer. -/
theorem Invoke_deposit_negative :
    (Invoke emptyStub ["deposit", "alice", "-5", "bofa"]).2 = Outcome.ret none none ∧
    (Invoke emptyStub ["deposit", "alice", "-5", "bofa"]).1.state "alice_bofa" = some "-5" ∧
    Atoi "-5" = (-5, none) ∧
    ¬ ∃ b : Int, 0 ≤ b ∧
      (Invoke emptyStub ["deposit", "alice", "-5", "bofa"]).1.state "alice_bofa"
        = some (Itoa b) := by
  refine ⟨by decide, by decide, by decide, ?_⟩
  rintro ⟨b, hb, h⟩
  have hval : (Invoke emptyStub ["deposit", "alice", "-5", "bofa"]).1.state "alice_bofa"
      = some "-5" := by decide
  rw [hval] at h
  have hno := Itoa_nonneg_no_minus b hb
  rw [← Option.some.inj h] at hno
  exact hno (by decide)

/-- C10, counterexample: over the empty ledger the key alice_bofa is absent; after a deposit
of 5 for alice at bofa it is present. -/
theorem Invoke_creates_holding :
    emptyStub.state "alice_bofa" = none ∧
    (Invoke emptyStub ["deposit", "alice", "5", "bofa"]).2 = Outcome.ret none none ∧
    (Invoke emptyStub ["deposit", "alice", "5", "bofa"]).1.state "alice_bofa" = some "5" := by
  decide

/-- C10, amended: every key other than the adjusted Holding key `A_B` holds after `Invoke`
the value it held before (so it is present after only if it was present before), for every
argument list; the key `A_B` itself is present after every successful `Invoke`, whether or
not it was present before. -/
theorem Invoke_other_keys_unchanged (stub : ChaincodeStub) (args : List String) :
    (∀ k : String,
      (∀ method A s B : String, args = [method, A, s, B] → k ≠ A ++ "_" ++ B) →
      (Invoke stub args).1.state k = stub.state k) ∧
    (∀ method A s B : String, args = [method, A, s, B] →
      (Invoke stub args).2 = Outcome.ret none none →
      (Invoke stub args).1.state (A ++ "_" ++ B) ≠ none) := by
  constructor
  · intro k hk
    by_cases hlen : args.length = 4
    · obtain ⟨method, A, s, B, rfl⟩ := length_four args hlen
      have hne := hk method A s B rfl
      rw [Invoke_four]
      rcases stub.getErr stub.gets.length with _ | e
      · rcases stub.putErr stub.puts.length with _ | c
        · exact writeState_other _ _ _ _ hne
        · rfl
      · rfl
    · unfold Invoke
      rw [if_pos hlen]
  · intro method A s B hargs hok
    subst hargs
    rw [Invoke_four_of_success stub method A s B hok]
    simp

/-- Witness of C10: a deposit for alice at bofa leaves the key alice_chase as it was, and
the key alice_bofa present. -/
theorem Invoke_other_keys_unchanged_witness :
    (Invoke (Init emptyStub ["alice", "bofa", "100", "chase", "50"]).1
      ["deposit", "alice", "30", "bofa"]).1.state "alice_chase"
      = (Init emptyStub ["alice", "bofa", "100", "chase", "50"]).1.state "alice_chase" ∧
    (Invoke (Init emptyStub ["alice", "bofa", "100", "chase", "50"]).1
      ["deposit", "alice", "30", "bofa"]).1.state ("alice" ++ "_" ++ "bofa") ≠ none :=
  ⟨(Invoke_other_keys_unchanged (Init emptyStub ["alice", "bofa", "100", "chase", "50"]).1
      ["deposit", "alice", "30", "bofa"]).1 "alice_chase"
      (fun method A s B h => by
        simp only [List.cons.injEq, and_true] at h
        obtain ⟨_, hA, _, hB⟩ := h
        subst hA hB
        decide),
   (Invoke_other_keys_unchanged (Init emptyStub ["alice", "bofa", "100", "chase", "50"]).1
      ["deposit", "alice", "30", "bofa"]).2 "deposit" "alice" "30" "bofa" rfl (by decide)⟩

/-! ## strconv: what `Atoi` returns, and reading back what `Itoa` wrote -/

/-- The function `ParseInt` on a non-empty string, with the result of `ParseUint` named. -/
theorem ParseInt_cons (c : Char) (cs : List Char) :
    ParseInt (c :: cs) =
      if (ParseUint (if c = '+' ∨ c = '-' then cs else c :: cs)).2 = some NumError.ErrSyntax
      then (0, some NumError.ErrSyntax)
      else if ¬ c = '-' ∧ (ParseUint (if c = '+' ∨ c = '-' then cs else c :: cs)).1 ≥ 2 ^ 63
      then (2 ^ 63 - 1, some NumError.ErrRange)
      else if c = '-' ∧ (ParseUint (if c = '+' ∨ c = '-' then cs else c :: cs)).1 > 2 ^ 63
      then (-(2 ^ 63), some NumError.ErrRange)
      else (if c = '-'
        then -((ParseUint (if c = '+' ∨ c = '-' then cs else c :: cs)).1 : Int)
        else ((ParseUint (if c = '+' ∨ c = '-' then cs else c :: cs)).1 : Int), none) := by
  unfold ParseInt
  simp only
  rcases ParseUint (if c = '+' ∨ c = '-' then cs else c :: cs) with ⟨un, _ | e⟩
  · simp [intSize]
  · cases e <;> simp [intSize]

/-- The value of `Atoi` is always a value of the type `int`. -/
theorem Atoi_inIntRange (s : String) : inIntRange (Atoi s).1 := by
  unfold Atoi inIntRange minInt maxInt intSize
  generalize s.data = l
  rcases l with _ | ⟨c, cs⟩
  · simp [ParseInt]
  · rw [ParseInt_cons]
    generalize (ParseUint (if c = '+' ∨ c = '-' then cs else c :: cs)) = r
    by_cases h0 : r.2 = some NumError.ErrSyntax
    · rw [if_pos h0]; norm_num
    · rw [if_neg h0]
      by_cases h1 : ¬ c = '-' ∧ r.1 ≥ 2 ^ 63
      · rw [if_pos h1]; norm_num
      · rw [if_neg h1]
        by_cases h2 : c = '-' ∧ r.1 > 2 ^ 63
        · rw [if_pos h2]; norm_num
        · rw [if_neg h2]
          by_cases hc : c = '-'
          · have h3 : ¬ (r.1 > 2 ^ 63) := fun h => h2 ⟨hc, h⟩
            simp only [hc, if_true]
            norm_num at h3 ⊢
            omega
          · have h3 : ¬ (r.1 ≥ 2 ^ 63) := fun h => h1 ⟨hc, h⟩
            simp only [hc, if_false]
            norm_num at h3 ⊢
            omega

/-- On a syntax error `Atoi` returns 0. -/
theorem Atoi_syntax_value (s : String) (h : (Atoi s).2 = some NumError.ErrSyntax) :
    (Atoi s).1 = 0 := by
  unfold Atoi at h ⊢
  generalize s.data = l at h ⊢
  rcases l with _ | ⟨c, cs⟩
  · simp [ParseInt]
  · rw [ParseInt_cons] at h ⊢
    split_ifs at h ⊢ <;> simp at h ⊢

/-- On a range error `Atoi` returns the largest or the smallest `int`. -/
theorem Atoi_range_value (s : String) (h : (Atoi s).2 = some NumError.ErrRange) :
    (Atoi s).1 = maxInt ∨ (Atoi s).1 = minInt := by
  unfold Atoi at h ⊢
  generalize s.data = l at h ⊢
  rcases l with _ | ⟨c, cs⟩
  · simp [ParseInt] at h
  · rw [ParseInt_cons] at h ⊢
    split_ifs at h ⊢ <;> simp [maxInt, minInt, intSize] at h ⊢

/-- On a range error `Atoi` returns the bound on the side of the sign: the smallest `int`
when the string starts with a minus sign, the largest `int` otherwise. -/
theorem Atoi_range_value_sign (s : String) (h : (Atoi s).2 = some NumError.ErrRange) :
    (Atoi s).1 = if s.data.head? = some '-' then minInt else maxInt := by
  unfold Atoi at h ⊢
  generalize s.data = l at h ⊢
  rcases l with _ | ⟨c, cs⟩
  · simp [ParseInt] at h
  · rw [ParseInt_cons] at h ⊢
    generalize (ParseUint (if c = '+' ∨ c = '-' then cs else c :: cs)) = r at h ⊢
    have hhead : ((c :: cs).head? = some '-') ↔ c = '-' := by simp
    by_cases h0 : r.2 = some NumError.ErrSyntax
    · rw [if_pos h0] at h; simp at h
    · rw [if_neg h0] at h ⊢
      by_cases h1 : ¬ c = '-' ∧ r.1 ≥ 2 ^ 63
      · rw [if_pos h1, if_neg (fun hh => h1.1 (hhead.mp hh))]
        simp [maxInt, intSize]
      · rw [if_neg h1] at h ⊢
        by_cases h2 : c = '-' ∧ r.1 > 2 ^ 63
        · rw [if_pos h2, if_pos (hhead.mpr h2.1)]
          simp [minInt, intSize]
        · rw [if_neg h2] at h; simp at h

theorem digitChar_toNat : ∀ d, d < 10 → (digitChar d).toNat = 48 + d := by decide

theorem digitChar_ne_plus : ∀ d, d < 10 → digitChar d ≠ '+' := by decide

/-- The digits are pushed in front of the accumulator, which is left as it is. -/
theorem formatBits_append (fuel : Nat) :
    ∀ (n : Nat) (acc : List Char), formatBits fuel n acc = formatBits fuel n [] ++ acc := by
  induction fuel with
  | zero => intro n acc; simp [formatBits]
  | succ f ih =>
    intro n acc
    rw [formatBits, formatBits]
    split
    · simp
    · rw [ih (n / 10) (digitChar (n % 10) :: acc), ih (n / 10) [digitChar (n % 10)]]
      simp

/-- The digits of a number of at least two digits: those of the quotient, then the last. -/
theorem formatBits_step (fuel n : Nat) (h : ¬ n < 10) :
    formatBits (fuel + 1) n [] = formatBits fuel (n / 10) [] ++ [digitChar (n % 10)] := by
  rw [formatBits, if_neg h, formatBits_append]

theorem formatBits_ne_nil (fuel n : Nat) : formatBits (fuel + 1) n [] ≠ [] := by
  by_cases h : n < 10
  · simp [formatBits, h]
  · rw [formatBits_step fuel n h]; simp

/-- Every character `formatBits` produces is a decimal digit. -/
theorem formatBits_digits (fuel : Nat) :
    ∀ n : Nat, ∀ ch ∈ formatBits fuel n [], ∃ d, d < 10 ∧ ch = digitChar d := by
  induction fuel with
  | zero => intro n ch hch; simp [formatBits] at hch
  | succ f ih =>
    intro n ch hch
    by_cases h : n < 10
    · simp [formatBits, h] at hch
      exact ⟨n, h, hch⟩
    · rw [formatBits_step f n h] at hch
      rcases List.mem_append.mp hch with h1 | h1
      · exact ih _ ch h1
      · simp at h1
        exact ⟨n % 10, Nat.mod_lt _ (by decide), h1⟩

/-- Reading digits that parse, then more bytes, is reading the rest from the value reached. -/
theorem parseUintLoop_append (ds : List Char) :
    ∀ (rest : List Char) (m v : Nat), parseUintLoop ds m = (v, none) →
      parseUintLoop (ds ++ rest) m = parseUintLoop rest v := by
  induction ds with
  | nil =>
    intro rest m v h
    simp [parseUintLoop] at h
    simp [h]
  | cons c cs ih =>
    intro rest m v h
    rw [List.cons_append, parseUintLoop]
    rw [parseUintLoop] at h
    by_cases h1 : '0'.toNat ≤ c.toNat ∧ c.toNat ≤ '9'.toNat
    · rw [if_pos h1] at h ⊢
      simp only at h ⊢
      by_cases h2 : m ≥ parseUintCutoff
      · rw [if_pos h2] at h; simp at h
      · rw [if_neg h2] at h ⊢
        by_cases h3 : (m * 10 + (c.toNat - '0'.toNat)) % 2 ^ 64 < m * 10
        · rw [if_pos h3] at h; simp at h
        · rw [if_neg h3] at h ⊢
          exact ih rest _ v h
    · rw [if_neg h1] at h; simp at h

/-- Reading one digit after the value `m`, when `m * 10 + d` fits a `uint64`. -/
theorem parseUintLoop_digit (d m : Nat) (hd : d < 10) (hm : m * 10 + d < 2 ^ 64) :
    parseUintLoop [digitChar d] m = (m * 10 + d, none) := by
  have hc := digitChar_toNat d hd
  have h0 : '0'.toNat = 48 := rfl
  have h9 : '9'.toNat = 57 := rfl
  have hcut : ¬ m ≥ parseUintCutoff := by
    unfold parseUintCutoff
    norm_num
    norm_num at hm
    omega
  have hmod : (m * 10 + d) % 2 ^ 64 = m * 10 + d := Nat.mod_eq_of_lt hm
  rw [parseUintLoop, if_pos (by rw [hc, h0, h9]; omega)]
  simp only [hc, h0, Nat.add_sub_cancel_left, if_neg hcut, hmod]
  rw [if_neg (by omega)]
  rfl

/-- Reading back the digits of a number that fits a `uint64` gives the number. -/
theorem parseUintLoop_formatBits (fuel : Nat) :
    ∀ n : Nat, n < fuel → n < 2 ^ 64 → parseUintLoop (formatBits fuel n []) 0 = (n, none) := by
  induction fuel with
  | zero => intro n h; omega
  | succ f ih =>
    intro n hf hn
    by_cases h : n < 10
    · have h1 := parseUintLoop_digit n 0 h (by omega)
      simp [formatBits, h]
      simpa using h1
    · rw [formatBits_step f n h]
      have hq := ih (n / 10) (by omega) (by omega)
      rw [parseUintLoop_append _ _ _ _ hq]
      have h1 := parseUintLoop_digit (n % 10) (n / 10) (Nat.mod_lt _ (by decide)) (by omega)
      rw [h1]
      congr 1
      omega

/-- The function `ParseUint` reads back the decimal digits of a number below `2^64`. -/
theorem ParseUint_formatUint (n : Nat) (hn : n < 2 ^ 64) :
    ParseUint (formatUint n) = (n, none) := by
  have h := parseUintLoop_formatBits (n + 1) n (by omega) hn
  unfold ParseUint formatUint
  split
  · rename_i heq
    exact absurd heq (formatBits_ne_nil n n)
  · exact h

/-- The function `Atoi` reads back what `Itoa` writes for a value of the type `int`. -/
theorem Atoi_Itoa (z : Int) (hz : inIntRange z) : Atoi (Itoa z) = (z, none) := by
  unfold inIntRange minInt maxInt intSize at hz
  norm_num at hz
  cases z with
  | ofNat n =>
    simp only [Int.ofNat_eq_coe] at hz ⊢
    have hn : n < 9223372036854775808 := by omega
    have hne := formatBits_ne_nil n n
    have hdig := formatBits_digits (n + 1) n
    have hP := ParseUint_formatUint n (by norm_num; omega)
    unfold Atoi
    have hI : (Itoa (n : Int)).data = formatUint n := rfl
    rw [hI]
    unfold formatUint at hP ⊢
    rcases hfb : formatBits (n + 1) n [] with _ | ⟨c, cs⟩
    · exact absurd hfb hne
    · rw [hfb] at hP hdig
      obtain ⟨d, hd, hcd⟩ := hdig c (List.mem_cons_self _ _)
      have hplus : c ≠ '+' := by rw [hcd]; exact digitChar_ne_plus d hd
      have hminus : c ≠ '-' := by rw [hcd]; exact digitChar_ne_minus d hd
      rw [ParseInt_cons]
      simp only [hplus, hminus, false_or, if_false, hP]
      rw [if_neg (by simp), if_neg (by simp; omega), if_neg (by simp)]
  | negSucc n =>
    have hneg : Int.negSucc n = -((n : Int) + 1) := Int.negSucc_eq n
    rw [hneg] at hz
    have hn : n + 1 ≤ 9223372036854775808 := by omega
    have hP := ParseUint_formatUint (n + 1) (by norm_num; omega)
    unfold Atoi
    have hI : (Itoa (Int.negSucc n)).data = '-' :: formatUint (n + 1) := rfl
    rw [hI, ParseInt_cons]
    simp only [or_true, if_true, hP]
    rw [if_neg (by simp), if_neg (by simp), if_neg (by simp; omega), hneg]
    simp

/-! ## The method `Query` -/

/-- The call `GetState` leaves ledger content and put log as they are. -/
theorem GetState_no_write (stub : ChaincodeStub) (key : String) :
    (GetState stub key).1.state = stub.state ∧ (GetState stub key).1.puts = stub.puts := by
  unfold GetState
  split <;> exact ⟨rfl, rfl⟩

/-- The method `Query` never writes: ledger content and put log are those of the stub. -/
theorem Query_no_write (stub : ChaincodeStub) (function : String) (args : List String) :
    (Query stub function args).1.state = stub.state ∧
    (Query stub function args).1.puts = stub.puts := by
  have hG : ∀ key keyName : String,
      (match GetState stub key with
        | (stub1, _, some _) =>
          (stub1, Outcome.ret none (some (GoError.new
            ("\x7b\"Error\":\"Failed to get state for " ++ key ++ "\"\x7d"))))
        | (stub1, none, none) =>
          (stub1, Outcome.ret none (some (GoError.new
            ("\x7b\"Error\":\"Nil amount for " ++ key ++ "\"\x7d"))))
        | (stub1, some Avalbytes, none) =>
          (stub1, Outcome.ret (some ("\x7b\"Name\":\"" ++ key ++ "\",\"" ++ keyName ++ "\":\""
            ++ Avalbytes ++ "\"\x7d")) none)).1.state = stub.state ∧
      (match GetState stub key with
        | (stub1, _, some _) =>
          (stub1, Outcome.ret none (some (GoError.new
            ("\x7b\"Error\":\"Failed to get state for " ++ key ++ "\"\x7d"))))
        | (stub1, none, none) =>
          (stub1, Outcome.ret none (some (GoError.new
            ("\x7b\"Error\":\"Nil amount for " ++ key ++ "\"\x7d"))))
        | (stub1, some Avalbytes, none) =>
          (stub1, Outcome.ret (some ("\x7b\"Name\":\"" ++ key ++ "\",\"" ++ keyName ++ "\":\""
            ++ Avalbytes ++ "\"\x7d")) none)).1.puts = stub.puts := by
    intro key keyName
    have h := GetState_no_write stub key
    rcases hq : GetState stub key with ⟨stub1, _ | v, _ | e⟩ <;> rw [hq] at h <;> exact h
  unfold Query
  by_cases h1 : function ≠ "query"
  · rw [if_pos h1]; exact ⟨rfl, rfl⟩
  · rw [if_neg h1]
    by_cases h2 : args.length > 2
    · rw [if_pos h2]; exact ⟨rfl, rfl⟩
    · rw [if_neg h2]
      rcases indexArgs args 0 with _ | A
      · exact ⟨rfl, rfl⟩
      · simp only
        by_cases h3 : args.length = 2
        · rw [if_pos h3]
          rcases indexArgs args 1 with _ | B
          · exact ⟨rfl, rfl⟩
          · exact hG _ _
        · rw [if_neg h3]
          exact hG _ _

/-- The method `Query` with the function query, once the key and its label are chosen and
the get succeeds. -/
theorem Query_one (stub : ChaincodeStub) (A : String)
    (hget : stub.getErr stub.gets.length = none) :
    Query stub "query" [A] =
      ({ stub with gets := stub.gets ++ [A] },
        match stub.state A with
        | none => queryNotFound A
        | some v => Outcome.ret (some (queryPayload A "List" v)) none) := by
  simp only [Query, indexArgs, GetState, hget, queryNotFound, queryPayload]
  rcases hv : stub.state A with _ | v <;> simp [hv]

theorem Query_two (stub : ChaincodeStub) (A B : String)
    (hget : stub.getErr stub.gets.length = none) :
    Query stub "query" [A, B] =
      ({ stub with gets := stub.gets ++ [A ++ "_" ++ B] },
        match stub.state (A ++ "_" ++ B) with
        | none => queryNotFound (A ++ "_" ++ B)
        | some v => Outcome.ret (some (queryPayload (A ++ "_" ++ B) "Amount" v)) none) := by
  simp only [Query, indexArgs, GetState, hget, queryNotFound, queryPayload]
  rcases hv : stub.state (A ++ "_" ++ B) with _ | v <;> simp [hv]

theorem queryPayload_List (key v : String) :
    queryPayload key "List" v
      = "\x7b\"Name\":\"" ++ key ++ "\",\"List\":\"" ++ v ++ "\"\x7d" := by
  have h : "\",\"" ++ "List" ++ "\":\"" = "\",\"List\":\"" := by decide
  unfold queryPayload
  rw [← h]
  simp only [String.append_assoc]

theorem queryPayload_Amount (key v : String) :
    queryPayload key "Amount" v
      = "\x7b\"Name\":\"" ++ key ++ "\",\"Amount\":\"" ++ v ++ "\"\x7d" := by
  have h : "\",\"" ++ "Amount" ++ "\":\"" = "\",\"Amount\":\"" := by decide
  unfold queryPayload
  rw [← h]
  simp only [String.append_assoc]

/-- A string without the separator is no Holding key. -/
theorem ne_holdingKey_of_no_separator (N A B : String) (hN : '_' ∉ N.data) :
    N ≠ A ++ "_" ++ B := by
  intro h
  apply hN
  rw [h]
  have h1 : "_".data = ['_'] := rfl
  simp [h1]

/-- The ledger after `Invoke`, at a key that is not the adjusted Holding key. -/
theorem Invoke_state_other (stub : ChaincodeStub) (args : List String) (k : String)
    (hk : ∀ method A s B : String, args = [method, A, s, B] → k ≠ A ++ "_" ++ B) :
    (Invoke stub args).1.state k = stub.state k := by
  by_cases hlen : args.length = 4
  · obtain ⟨method, A, s, B, rfl⟩ := length_four args hlen
    have hne := hk method A s B rfl
    rw [Invoke_four]
    rcases stub.getErr stub.gets.length with _ | e
    · rcases stub.putErr stub.puts.length with _ | c
      · exact writeState_other _ _ _ _ hne
      · rfl
    · rfl
  · unfold Invoke
    rw [if_pos hlen]

/-- An `Invoke` that returns an error has left the ledger content as it was. -/
theorem Invoke_state_of_error (stub : ChaincodeStub) (args : List String)
    (payload : Option String) (e : GoError)
    (h : (Invoke stub args).2 = Outcome.ret payload (some e)) :
    (Invoke stub args).1.state = stub.state := by
  by_cases hlen : args.length = 4
  · obtain ⟨method, A, s, B, rfl⟩ := length_four args hlen
    rw [Invoke_four] at h ⊢
    rcases hg : stub.getErr stub.gets.length with _ | c
    · rcases hp : stub.putErr stub.puts.length with _ | c
      · rw [hg, hp] at h; simp at h
      · rfl
    · rfl
  · unfold Invoke
    rw [if_pos hlen]

/-! ## Claims about the frame of `Invoke` and about `Query` -/

/-- C11, counterexample: `Init` for the account alice_x stores its bank list bofa under the
key alice_x; a deposit of 30 for the account alice at the bank x then succeeds and leaves 30
under that key. -/
theorem Invoke_overwrites_bankList :
    (Init emptyStub ["alice_x", "bofa", "100"]).2 = Outcome.ret none none ∧
    (Init emptyStub ["alice_x", "bofa", "100"]).1.state "alice_x" = some "bofa" ∧
    (Invoke (Init emptyStub ["alice_x", "bofa", "100"]).1
      ["deposit", "alice", "30", "x"]).2 = Outcome.ret none none ∧
    (Invoke (Init emptyStub ["alice_x", "bofa", "100"]).1
      ["deposit", "alice", "30", "x"]).1.state "alice_x" = some "30" ∧
    (Invoke (Init emptyStub ["alice_x", "bofa", "100"]).1
      ["deposit", "alice", "30", "x"]).1.state "alice_x"
      ≠ (Init emptyStub ["alice_x", "bofa", "100"]).1.state "alice_x" := by
  decide

/-- C11, amended: for every account name `N` that does not contain the separator `_`, every
store and every argument list, the value under key `N` after `Invoke` equals the value before
it; and for every key `N` whatever, the value under `N` after `Query` equals the value before
it. -/
theorem bankList_kept (stub : ChaincodeStub) (N function : String) (args : List String) :
    ('_' ∉ N.data → (Invoke stub args).1.state N = stub.state N) ∧
    (Query stub function args).1.state N = stub.state N := by
  constructor
  · intro hN
    exact Invoke_state_other stub args N
      (fun _ A _ B _ => ne_holdingKey_of_no_separator N A B hN)
  · rw [(Query_no_write stub function args).1]

/-- Witness of C11: after `Init` for alice, a deposit for alice at bofa and a query leave the
bank list under alice as it was. -/
theorem bankList_kept_witness :
    (Invoke (Init emptyStub ["alice", "bofa", "100", "chase", "50"]).1
      ["deposit", "alice", "30", "bofa"]).1.state "alice"
      = (Init emptyStub ["alice", "bofa", "100", "chase", "50"]).1.state "alice" ∧
    (Query (Init emptyStub ["alice", "bofa", "100", "chase", "50"]).1 "query"
      ["alice", "bofa"]).1.state "alice"
      = (Init emptyStub ["alice", "bofa", "100", "chase", "50"]).1.state "alice" :=
  ⟨(bankList_kept (Init emptyStub ["alice", "bofa", "100", "chase", "50"]).1 "alice" "query"
      ["deposit", "alice", "30", "bofa"]).1 (by decide),
   (bankList_kept (Init emptyStub ["alice", "bofa", "100", "chase", "50"]).1 "alice" "query"
      ["alice", "bofa"]).2⟩

/-- C12: on four arguments `[method, A, s, B]`, `Invoke` leaves every key other than `A_B`
with the value it had before; and an `Invoke` that returns an error, on any argument list,
leaves the ledger content entirely unchanged. -/
theorem Invoke_writes_one_key (stub : ChaincodeStub) (args : List String) :
    (∀ method A s B : String, args = [method, A, s, B] →
      ∀ k : String, k ≠ A ++ "_" ++ B → (Invoke stub args).1.state k = stub.state k) ∧
    (∀ (payload : Option String) (e : GoError),
      (Invoke stub args).2 = Outcome.ret payload (some e) →
      (Invoke stub args).1.state = stub.state) := by
  constructor
  · intro method A s B hargs k hk
    apply Invoke_state_other stub args k
    intro method1 A1 s1 B1 h1
    rw [hargs] at h1
    simp only [List.cons.injEq, and_true] at h1
    obtain ⟨_, hA, _, hB⟩ := h1
    rw [← hA, ← hB]
    exact hk
  · intro payload e h
    exact Invoke_state_of_error stub args payload e h

/-- Witness of C12: a deposit for alice at bofa leaves the key alice_chase as it was; the same
deposit on a stub whose first put fails returns the error of the stub and leaves the ledger
content unchanged. -/
theorem Invoke_writes_one_key_witness :
    (Invoke (Init emptyStub ["alice", "bofa", "100", "chase", "50"]).1
      ["deposit", "alice", "30", "bofa"]).1.state "alice_chase"
      = (Init emptyStub ["alice", "bofa", "100", "chase", "50"]).1.state "alice_chase" ∧
    (Invoke (failingStub 0 7) ["deposit", "alice", "30", "bofa"]).1.state
      = (failingStub 0 7).state :=
  ⟨(Invoke_writes_one_key (Init emptyStub ["alice", "bofa", "100", "chase", "50"]).1
      ["deposit", "alice", "30", "bofa"]).1 "deposit" "alice" "30" "bofa" rfl "alice_chase"
      (by decide),
   (Invoke_writes_one_key (failingStub 0 7) ["deposit", "alice", "30", "bofa"]).2
      none (GoError.stub 7) (by decide)⟩

/-- C13: with the function query and a get that succeeds, `Query` on `[A]` reads the key `A`
and `Query` on `[A, B]` reads the key `A_B`; when the key holds `v` the payload is exactly the
Name of the key followed by `v` under the label List (one argument) or Amount (two
arguments), with no error; when the key is absent the result is the not-found error that
carries the key, with no payload; `Query` never writes, whatever its arguments. -/
theorem Query_result (stub : ChaincodeStub) (A B v w : String)
    (hget : stub.getErr stub.gets.length = none) :
    (Query stub "query" [A]).1.gets = stub.gets ++ [A] ∧
    (stub.state A = some v → (Query stub "query" [A]).2 = Outcome.ret
      (some ("\x7b\"Name\":\"" ++ A ++ "\",\"List\":\"" ++ v ++ "\"\x7d")) none) ∧
    (stub.state A = none → (Query stub "query" [A]).2 = Outcome.ret none
      (some (GoError.new ("\x7b\"Error\":\"Nil amount for " ++ A ++ "\"\x7d")))) ∧
    (Query stub "query" [A, B]).1.gets = stub.gets ++ [A ++ "_" ++ B] ∧
    (stub.state (A ++ "_" ++ B) = some w → (Query stub "query" [A, B]).2 = Outcome.ret
      (some ("\x7b\"Name\":\"" ++ (A ++ "_" ++ B) ++ "\",\"Amount\":\"" ++ w ++ "\"\x7d"))
      none) ∧
    (stub.state (A ++ "_" ++ B) = none → (Query stub "query" [A, B]).2 = Outcome.ret none
      (some (GoError.new
        ("\x7b\"Error\":\"Nil amount for " ++ (A ++ "_" ++ B) ++ "\"\x7d")))) ∧
    (∀ (function : String) (args : List String),
      (Query stub function args).1.state = stub.state ∧
      (Query stub function args).1.puts = stub.puts) := by
  rw [Query_one stub A hget, Query_two stub A B hget]
  refine ⟨rfl, ?_, ?_, rfl, ?_, ?_, fun function args => Query_no_write stub function args⟩
  · intro h
    simp only [h, queryPayload_List]
  · intro h
    simp only [h, queryNotFound]
  · intro h
    simp only [h, queryPayload_Amount]
  · intro h
    simp only [h, queryNotFound]

/-- Witness of C13: after `Init` for alice with bofa 100 and chase 50, the two queries of
the account and of its Holding at bofa, and the query of a Holding that was never written. -/
theorem Query_result_witness :
    (Query (Init emptyStub ["alice", "bofa", "100", "chase", "50"]).1 "query" ["alice"]).2
      = Outcome.ret (some ("\x7b\"Name\":\"" ++ "alice" ++ "\",\"List\":\"" ++ "bofa,chase"
          ++ "\"\x7d")) none ∧
    (Query (Init emptyStub ["alice", "bofa", "100", "chase", "50"]).1 "query"
      ["alice", "bofa"]).2
      = Outcome.ret (some ("\x7b\"Name\":\"" ++ ("alice" ++ "_" ++ "bofa") ++ "\",\"Amount\":\""
          ++ "100" ++ "\"\x7d")) none ∧
    (Query (Init emptyStub ["alice", "bofa", "100", "chase", "50"]).1 "query"
      ["alice", "citi"]).2
      = Outcome.ret none (some (GoError.new
          ("\x7b\"Error\":\"Nil amount for " ++ ("alice" ++ "_" ++ "citi") ++ "\"\x7d"))) :=
  ⟨(Query_result (Init emptyStub ["alice", "bofa", "100", "chase", "50"]).1 "alice" "bofa"
      "bofa,chase" "100" rfl).2.1 (by decide),
   (Query_result (Init emptyStub ["alice", "bofa", "100", "chase", "50"]).1 "alice" "bofa"
      "bofa,chase" "100" rfl).2.2.2.2.1 (by decide),
   (Query_result (Init emptyStub ["alice", "bofa", "100", "chase", "50"]).1 "alice" "citi"
      "bofa,chase" "100" rfl).2.2.2.2.2.1 (by decide)⟩

/-- C14, evaluated at a failing input: with the function query and the empty argument list
`Query` does not return an error, it stops with an index out of range at `args[0]`. -/
theorem Query_empty_args_panics :
    (Query emptyStub "query" []).2 = Outcome.panic ∧
    (Query emptyStub "query" []).2 ≠ queryArgumentCountError := by
  decide

/-- The two checks `Query` does make: a function name other than query is refused with the
invalid-function error whatever the arguments, and with the function query more than two
arguments are refused with the argument-count error; the stub is left as it was. -/
theorem Query_validation (stub : ChaincodeStub) (function : String) (args : List String) :
    (function ≠ "query" → Query stub function args = (stub, queryInvalidFunction)) ∧
    (function = "query" → 2 < args.length →
      Query stub function args = (stub, queryArgumentCountError)) := by
  constructor
  · intro h
    unfold Query
    rw [if_pos h]
    rfl
  · intro h hlen
    unfold Query
    rw [if_neg (by simp [h]), if_pos hlen]
    rfl

/-! ## Sequences of calls -/

theorem wrapInt_add_wrapInt (a b : Int) : wrapInt (wrapInt a + b) = wrapInt (a + b) := by
  unfold wrapInt intSize
  norm_num
  omega

theorem writeState_writeState (state : String → Option String) (key v w : String) :
    writeState (writeState state key v) key w = writeState state key w := by
  funext k
  by_cases h : k = key <;> simp [writeState, h]

theorem writeState_of_same (state : String → Option String) (key v : String)
    (h : state key = some v) : writeState state key v = state := by
  funext k
  by_cases hk : k = key
  · rw [hk, writeState_same, h]
  · rw [writeState_other _ _ _ _ hk]

/-- Reading the balance back from a key that holds what `Itoa` wrote. -/
theorem readBalance_writeState (state : String → Option String) (key : String) (z : Int)
    (hz : inIntRange z) : readBalance (writeState state key (Itoa z)) key = z := by
  simp [readBalance, writeState_same, Atoi_Itoa z hz]

/-- The method `Invoke` leaves the two error oracles of the stub as they are. -/
theorem Invoke_oracles (stub : ChaincodeStub) (args : List String) :
    (Invoke stub args).1.getErr = stub.getErr ∧ (Invoke stub args).1.putErr = stub.putErr := by
  by_cases hlen : args.length = 4
  · obtain ⟨method, A, s, B, rfl⟩ := length_four args hlen
    rw [Invoke_four]
    rcases stub.getErr stub.gets.length with _ | e
    · rcases stub.putErr stub.puts.length with _ | c <;> exact ⟨rfl, rfl⟩
    · exact ⟨rfl, rfl⟩
  · unfold Invoke
    rw [if_pos hlen]
    exact ⟨rfl, rfl⟩

/-- The ledger after one deposit whose get and put succeed. -/
theorem Invoke_deposit_state (stub : ChaincodeStub) (A s B : String)
    (hget : ∀ n, stub.getErr n = none) (hput : ∀ n, stub.putErr n = none) :
    (Invoke stub ["deposit", A, s, B]).1.state
      = writeState stub.state (A ++ "_" ++ B)
          (Itoa (wrapInt (readBalance stub.state (A ++ "_" ++ B) + (Atoi s).1))) := by
  rw [Invoke_four, hget, hput]
  simp [adjustedBalance]

theorem depositAll_cons (stub : ChaincodeStub) (A B : String) (x : Int) (rest : List Int) :
    depositAll stub A B (x :: rest)
      = depositAll (Invoke stub ["deposit", A, Itoa x, B]).1 A B rest := rfl

/-- The ledger after a non-empty sequence of deposits of amounts in the range of `int`: one
write of the wrapped sum under the Holding key. -/
theorem depositAll_state (A B : String) (xs : List Int) :
    ∀ stub : ChaincodeStub, (∀ n, stub.getErr n = none) → (∀ n, stub.putErr n = none) →
      (∀ x ∈ xs, inIntRange x) → xs ≠ [] →
      (depositAll stub A B xs).state
        = writeState stub.state (A ++ "_" ++ B)
            (Itoa (wrapInt (readBalance stub.state (A ++ "_" ++ B) + xs.sum))) := by
  induction xs with
  | nil => intro stub _ _ _ h; exact absurd rfl h
  | cons x rest ih =>
    intro stub hget hput hx _
    have hstep := Invoke_deposit_state stub A (Itoa x) B hget hput
    rw [Atoi_Itoa x (hx x (List.mem_cons_self _ _))] at hstep
    rw [depositAll_cons]
    by_cases hrest : rest = []
    · subst hrest
      simpa [depositAll] using hstep
    · have ho := Invoke_oracles stub ["deposit", A, Itoa x, B]
      rw [ih _ (by rw [ho.1]; exact hget) (by rw [ho.2]; exact hput)
        (fun y hy => hx y (List.mem_cons_of_mem _ hy)) hrest, hstep,
        readBalance_writeState _ _ _ (wrapInt_inIntRange _), writeState_writeState,
        wrapInt_add_wrapInt, List.sum_cons, Int.add_assoc]

/-! ## Claims about sequences of calls -/

/-- C15, counterexample: after `Init` has stored the balance 9223372036854775807 for alice
at bofa, the single deposit of 1 leaves -9223372036854775808, which is not the decimal string
of 9223372036854775807 + 1. -/
theorem deposit_sum_overflow :
    (Init emptyStub ["alice", "bofa", "9223372036854775807"]).1.state "alice_bofa"
      = some "9223372036854775807" ∧
    Atoi "9223372036854775807" = (9223372036854775807, none) ∧
    (depositAll (Init emptyStub ["alice", "bofa", "9223372036854775807"]).1 "alice" "bofa"
      [1]).state "alice_bofa" = some "-9223372036854775808" ∧
    (depositAll (Init emptyStub ["alice", "bofa", "9223372036854775807"]).1 "alice" "bofa"
      [1]).state "alice_bofa" ≠ some (Itoa (9223372036854775807 + [1].sum)) := by
  decide

/-- C15, amended: when get and put succeed, the value under `A_B` parses as `b0` and the
amounts `xs` lie in the range of `int`, the deposits of `xs` in sequence leave under `A_B` a
balance that reads as `b0 + sum xs` wrapped into the 64-bit range of `int` (written as its
decimal string when `xs` is not empty), which is `b0 + sum xs` whenever that sum lies in the
range; and the deposits of any permutation of `xs` leave the same ledger content. -/
theorem deposit_sum (stub : ChaincodeStub) (A B v : String) (b0 : Int) (xs : List Int)
    (hget : ∀ n, stub.getErr n = none) (hput : ∀ n, stub.putErr n = none)
    (hv : stub.state (A ++ "_" ++ B) = some v) (hb : Atoi v = (b0, none))
    (hx : ∀ x ∈ xs, inIntRange x) :
    readBalance (depositAll stub A B xs).state (A ++ "_" ++ B) = wrapInt (b0 + xs.sum) ∧
    (xs ≠ [] → (depositAll stub A B xs).state (A ++ "_" ++ B)
      = some (Itoa (wrapInt (b0 + xs.sum)))) ∧
    (inIntRange (b0 + xs.sum) →
      readBalance (depositAll stub A B xs).state (A ++ "_" ++ B) = b0 + xs.sum) ∧
    (∀ ys : List Int, ys.Perm xs →
      (depositAll stub A B ys).state = (depositAll stub A B xs).state) := by
  have hb0 : readBalance stub.state (A ++ "_" ++ B) = b0 := by
    simp [readBalance, hv, hb]
  have hr0 : inIntRange b0 := by
    have h := Atoi_inIntRange v
    rw [hb] at h
    exact h
  have hread : readBalance (depositAll stub A B xs).state (A ++ "_" ++ B)
      = wrapInt (b0 + xs.sum) := by
    by_cases hne : xs = []
    · subst hne
      simp only [depositAll, List.foldl_nil, List.sum_nil, Int.add_zero]
      rw [hb0, wrapInt_of_inIntRange _ hr0]
    · rw [depositAll_state A B xs stub hget hput hx hne,
        readBalance_writeState _ _ _ (wrapInt_inIntRange _), hb0]
  refine ⟨hread, ?_, ?_, ?_⟩
  · intro hne
    rw [depositAll_state A B xs stub hget hput hx hne, writeState_same, hb0]
  · intro hr
    rw [hread, wrapInt_of_inIntRange _ hr]
  · intro ys hperm
    by_cases hne : xs = []
    · subst hne
      rw [List.Perm.eq_nil hperm]
    · have hne1 : ys ≠ [] := fun h => hne (List.Perm.eq_nil (h ▸ hperm.symm))
      rw [depositAll_state A B xs stub hget hput hx hne,
        depositAll_state A B ys stub hget hput
          (fun y hy => hx y ((List.Perm.mem_iff hperm).mp hy)) hne1,
        List.Perm.sum_eq hperm]

/-- Witness of C15: after `Init` with alice, bofa 100, the deposits 30, -10, 5. -/
theorem deposit_sum_witness :
    readBalance (depositAll (Init emptyStub ["alice", "bofa", "100"]).1 "alice" "bofa"
      [30, -10, 5]).state ("alice" ++ "_" ++ "bofa") = wrapInt (100 + [30, -10, 5].sum) ∧
    ([30, -10, 5] ≠ ([] : List Int) →
      (depositAll (Init emptyStub ["alice", "bofa", "100"]).1 "alice" "bofa"
        [30, -10, 5]).state ("alice" ++ "_" ++ "bofa")
        = some (Itoa (wrapInt (100 + [30, -10, 5].sum)))) ∧
    (inIntRange (100 + [30, -10, 5].sum) →
      readBalance (depositAll (Init emptyStub ["alice", "bofa", "100"]).1 "alice" "bofa"
        [30, -10, 5]).state ("alice" ++ "_" ++ "bofa") = 100 + [30, -10, 5].sum) ∧
    (∀ ys : List Int, ys.Perm [30, -10, 5] →
      (depositAll (Init emptyStub ["alice", "bofa", "100"]).1 "alice" "bofa" ys).state
        = (depositAll (Init emptyStub ["alice", "bofa", "100"]).1 "alice" "bofa"
            [30, -10, 5]).state) :=
  deposit_sum (Init emptyStub ["alice", "bofa", "100"]).1 "alice" "bofa" "100" 100
    [30, -10, 5] (fun _ => rfl) (fun _ => rfl) (by decide) (by decide) (by decide)

/-- The Holding writes of `Init` leave under `A_B` the amount of the pair that names `B`
when no later pair names it. -/
theorem holdingWrites_last_pair (A B amount : String) (pre post : List (String × String))
    (state : String → Option String) (hpost : ∀ p ∈ post, p.1 ≠ B) :
    holdingWrites A (pre ++ (B, amount) :: post) state (A ++ "_" ++ B)
      = some (Itoa (Atoi amount).1) := by
  have hsplit : holdingWrites A (pre ++ (B, amount) :: post) state
      = holdingWrites A post (writeState (holdingWrites A pre state) (A ++ "_" ++ B)
          (Itoa (Atoi amount).1)) := by
    simp [holdingWrites, holdingPut, List.foldl_append]
  rw [hsplit, holdingWrites_frame A post _ _
    (fun p hp h => hpost p hp (holdingKey_inj A B p.1 h).symm)]
  exact writeState_same _ _ _

/-- C16, counterexample: `Init` for alice with bofa 9223372036854775807, then a deposit of 1,
then the query of the Holding: the payload carries -9223372036854775808, not the decimal
string of 9223372036854775807 + 1. -/
theorem Init_deposit_Query_overflow :
    (Query (Invoke (Init emptyStub ["alice", "bofa", "9223372036854775807"]).1
      ["deposit", "alice", "1", "bofa"]).1 "query" ["alice", "bofa"]).2
      = Outcome.ret (some
          "\x7b\"Name\":\"alice_bofa\",\"Amount\":\"-9223372036854775808\"\x7d") none ∧
    Itoa 9223372036854775807 = "9223372036854775807" ∧ Itoa 1 = "1" ∧
    (Query (Invoke (Init emptyStub ["alice", "bofa", "9223372036854775807"]).1
      ["deposit", "alice", "1", "bofa"]).1 "query" ["alice", "bofa"]).2
      ≠ Outcome.ret (some ("\x7b\"Name\":\"alice_bofa\",\"Amount\":\""
          ++ Itoa (9223372036854775807 + 1) ++ "\"\x7d")) none := by
  decide

/-- C16, amended: when get and put succeed, `a` and `x` lie in the range of `int`, every
amount of the argument list parses and the last pair that names `B` has the amount `Itoa a`,
then `Init`, a deposit of `Itoa x` for `A` at `B` and the query of `[A, B]` return the payload
with the key `A_B` and the Amount `a + x` wrapped into the 64-bit range of `int`, which is
`a + x` whenever that sum lies in the range; and the query of `[A]` returns the payload with
the bank list that `Init` wrote under `A`. -/
theorem Init_deposit_Query (stub : ChaincodeStub) (A B : String) (a x : Int)
    (pre post pairs : List (String × String))
    (hpairs : pairs = pre ++ (B, Itoa a) :: post)
    (hget : ∀ n, stub.getErr n = none) (hput : ∀ n, stub.putErr n = none)
    (ha : inIntRange a) (hx : inIntRange x)
    (hpre : ∀ p ∈ pre, (Atoi p.2).2 = none)
    (hpost : ∀ p ∈ post, (Atoi p.2).2 = none ∧ p.1 ≠ B) :
    (Query (Invoke (Init stub (A :: flatPairs pairs)).1 ["deposit", A, Itoa x, B]).1
      "query" [A, B]).2
      = Outcome.ret (some ("\x7b\"Name\":\"" ++ (A ++ "_" ++ B) ++ "\",\"Amount\":\""
          ++ Itoa (wrapInt (a + x)) ++ "\"\x7d")) none ∧
    (inIntRange (a + x) →
      (Query (Invoke (Init stub (A :: flatPairs pairs)).1 ["deposit", A, Itoa x, B]).1
        "query" [A, B]).2
        = Outcome.ret (some ("\x7b\"Name\":\"" ++ (A ++ "_" ++ B) ++ "\",\"Amount\":\""
            ++ Itoa (a + x) ++ "\"\x7d")) none) ∧
    (Init stub (A :: flatPairs pairs)).1.state A = some (bankListAfter pairs "") ∧
    (Query (Invoke (Init stub (A :: flatPairs pairs)).1 ["deposit", A, Itoa x, B]).1
      "query" [A]).2
      = Outcome.ret (some ("\x7b\"Name\":\"" ++ A ++ "\",\"List\":\""
          ++ bankListAfter pairs "" ++ "\"\x7d")) none := by
  have hparse : ∀ p ∈ pairs, (Atoi p.2).2 = none := by
    intro p hp
    rw [hpairs] at hp
    rcases List.mem_append.mp hp with h | h
    · exact hpre p h
    · rcases List.mem_cons.mp h with h1 | h1
      · rw [h1]; simp [Atoi_Itoa a ha]
      · exact (hpost p h1).1
  have hne : pairs ≠ [] := by rw [hpairs]; simp
  have hInit := Init_success stub A pairs hne hput hparse
  -- the stub after `Init`
  have hs1A : (Init stub (A :: flatPairs pairs)).1.state A = some (bankListAfter pairs "") := by
    rw [hInit]; exact writeState_same _ _ _
  have hs1K : (Init stub (A :: flatPairs pairs)).1.state (A ++ "_" ++ B) = some (Itoa a) := by
    rw [hInit]
    simp only
    rw [writeState_other _ _ _ _ (holdingKey_ne_account A B), hpairs,
      holdingWrites_last_pair A B (Itoa a) pre post stub.state (fun p hp => (hpost p hp).2),
      Atoi_Itoa a ha]
  have hs1g : ∀ n, (Init stub (A :: flatPairs pairs)).1.getErr n = none := by
    rw [hInit]; exact hget
  have hs1p : ∀ n, (Init stub (A :: flatPairs pairs)).1.putErr n = none := by
    rw [hInit]; exact hput
  -- the stub after the deposit
  have hread : readBalance (Init stub (A :: flatPairs pairs)).1.state (A ++ "_" ++ B) = a := by
    simp [readBalance, hs1K, Atoi_Itoa a ha]
  have hs2 := Invoke_deposit_state (Init stub (A :: flatPairs pairs)).1 A (Itoa x) B hs1g hs1p
  rw [Atoi_Itoa x hx, hread] at hs2
  have ho := Invoke_oracles (Init stub (A :: flatPairs pairs)).1 ["deposit", A, Itoa x, B]
  have hs2g : (Invoke (Init stub (A :: flatPairs pairs)).1 ["deposit", A, Itoa x, B]).1.getErr
      (Invoke (Init stub (A :: flatPairs pairs)).1 ["deposit", A, Itoa x, B]).1.gets.length
      = none := by rw [ho.1]; exact hs1g _
  have hs2K : (Invoke (Init stub (A :: flatPairs pairs)).1 ["deposit", A, Itoa x, B]).1.state
      (A ++ "_" ++ B) = some (Itoa (wrapInt (a + x))) := by
    rw [hs2]; exact writeState_same _ _ _
  have hs2A : (Invoke (Init stub (A :: flatPairs pairs)).1 ["deposit", A, Itoa x, B]).1.state A
      = some (bankListAfter pairs "") := by
    rw [hs2, writeState_other _ _ _ _ (fun h => holdingKey_ne_account A B h.symm), hs1A]
  have hQ2 : (Query (Invoke (Init stub (A :: flatPairs pairs)).1
      ["deposit", A, Itoa x, B]).1 "query" [A, B]).2
      = Outcome.ret (some ("\x7b\"Name\":\"" ++ (A ++ "_" ++ B) ++ "\",\"Amount\":\""
          ++ Itoa (wrapInt (a + x)) ++ "\"\x7d")) none := by
    rw [Query_two _ A B hs2g]
    simp only [hs2K, queryPayload_Amount]
  refine ⟨hQ2, ?_, hs1A, ?_⟩
  · intro hr
    rw [hQ2, wrapInt_of_inIntRange _ hr]
  · rw [Query_one _ A hs2g]
    simp only [hs2A, queryPayload_List]

/-- Witness of C16: alice with bofa 100 and chase 50, then a deposit of 30 at bofa: the
query of the Holding returns 130 and the query of the account returns bofa,chase. -/
theorem Init_deposit_Query_witness :
    (Query (Invoke (Init emptyStub ("alice" :: flatPairs [("bofa", "100"), ("chase", "50")])).1
      ["deposit", "alice", Itoa 30, "bofa"]).1 "query" ["alice", "bofa"]).2
      = Outcome.ret (some ("\x7b\"Name\":\"" ++ ("alice" ++ "_" ++ "bofa")
          ++ "\",\"Amount\":\"" ++ Itoa (100 + 30) ++ "\"\x7d")) none ∧
    (Query (Invoke (Init emptyStub ("alice" :: flatPairs [("bofa", "100"), ("chase", "50")])).1
      ["deposit", "alice", Itoa 30, "bofa"]).1 "query" ["alice"]).2
      = Outcome.ret (some ("\x7b\"Name\":\"" ++ "alice" ++ "\",\"List\":\""
          ++ bankListAfter [("bofa", "100"), ("chase", "50")] "" ++ "\"\x7d")) none ∧
    Itoa (100 + 30) = "130" ∧ bankListAfter [("bofa", "100"), ("chase", "50")] "" = "bofa,chase" :=
  ⟨(Init_deposit_Query emptyStub "alice" "bofa" 100 30 [] [("chase", "50")]
      [("bofa", "100"), ("chase", "50")] (by decide) (fun _ => rfl) (fun _ => rfl)
      (by decide) (by decide) (by decide) (by decide)).2.1 (by decide),
   (Init_deposit_Query emptyStub "alice" "bofa" 100 30 [] [("chase", "50")]
      [("bofa", "100"), ("chase", "50")] (by decide) (fun _ => rfl) (fun _ => rfl)
      (by decide) (by decide) (by decide) (by decide)).2.2.2,
   by decide, by decide⟩

/-! ## Claims about the lenient decoding of `Invoke` -/

/-- The method `Invoke` on four arguments uses the amount string only through the value
of `Atoi` on it. -/
theorem Invoke_congr_amount (stub : ChaincodeStub) (method A s t B : String)
    (h : (Atoi s).1 = (Atoi t).1) :
    Invoke stub [method, A, s, B] = Invoke stub [method, A, t, B] := by
  rw [Invoke_four, Invoke_four, h]

/-- C17, counterexample: the key alice_bofa holds 9223372036854775808, the canonical decimal
string of that integer; an `Invoke` with the method audit succeeds and leaves
9223372036854775807 under the key. -/
theorem Invoke_unknown_method_clamps :
    Itoa 9223372036854775808 = "9223372036854775808" ∧
    (storeWith "alice_bofa" "9223372036854775808").state "alice_bofa"
      = some "9223372036854775808" ∧
    (Invoke (storeWith "alice_bofa" "9223372036854775808")
      ["audit", "alice", "0", "bofa"]).2 = Outcome.ret none none ∧
    (Invoke (storeWith "alice_bofa" "9223372036854775808")
      ["audit", "alice", "0", "bofa"]).1.state "alice_bofa" = some "9223372036854775807" ∧
    (Invoke (storeWith "alice_bofa" "9223372036854775808")
      ["audit", "alice", "0", "bofa"]).1.state "alice_bofa"
      ≠ (storeWith "alice_bofa" "9223372036854775808").state "alice_bofa" := by
  decide

/-- C17, amended: for a method that is neither deposit nor withdraw, when get and put
succeed, `Invoke` returns success and still issues the put; the value under `A_B` afterwards
is the decimal string of the integer `Atoi` returned for the previous value; so a Holding
whose stored value is the decimal string of an integer in the range of `int` is left
byte for byte as it was, and so is the whole ledger content. -/
theorem Invoke_unknown_method (stub : ChaincodeStub) (method A s B : String)
    (hm1 : method ≠ "deposit") (hm2 : method ≠ "withdraw")
    (hget : ∀ n, stub.getErr n = none) (hput : ∀ n, stub.putErr n = none) :
    (Invoke stub [method, A, s, B]).2 = Outcome.ret none none ∧
    (Invoke stub [method, A, s, B]).1.puts
      = stub.puts ++ [(A ++ "_" ++ B, Itoa (readBalance stub.state (A ++ "_" ++ B)))] ∧
    (Invoke stub [method, A, s, B]).1.state (A ++ "_" ++ B)
      = some (Itoa (readBalance stub.state (A ++ "_" ++ B))) ∧
    (∀ z : Int, inIntRange z → stub.state (A ++ "_" ++ B) = some (Itoa z) →
      (Invoke stub [method, A, s, B]).1.state = stub.state) := by
  have hb : adjustedBalance method (readBalance stub.state (A ++ "_" ++ B)) (Atoi s).1
      = readBalance stub.state (A ++ "_" ++ B) := by
    simp [adjustedBalance, hm1, hm2]
  rw [Invoke_four, hget, hput, hb]
  refine ⟨rfl, rfl, writeState_same _ _ _, ?_⟩
  intro z hz hv
  have hr : readBalance stub.state (A ++ "_" ++ B) = z := by
    simp [readBalance, hv, Atoi_Itoa z hz]
  simp only [hr]
  exact writeState_of_same _ _ _ hv

/-- Witness of C17: after `Init` with alice, bofa 100, the method audit puts 100 back. -/
theorem Invoke_unknown_method_witness :
    (Invoke (Init emptyStub ["alice", "bofa", "100"]).1 ["audit", "alice", "7", "bofa"]).2
      = Outcome.ret none none ∧
    (Invoke (Init emptyStub ["alice", "bofa", "100"]).1 ["audit", "alice", "7", "bofa"]).1.state
      = (Init emptyStub ["alice", "bofa", "100"]).1.state :=
  ⟨(Invoke_unknown_method (Init emptyStub ["alice", "bofa", "100"]).1 "audit" "alice" "7"
      "bofa" (by decide) (by decide) (fun _ => rfl) (fun _ => rfl)).1,
   (Invoke_unknown_method (Init emptyStub ["alice", "bofa", "100"]).1 "audit" "alice" "7"
      "bofa" (by decide) (by decide) (fun _ => rfl) (fun _ => rfl)).2.2.2 100 (by decide)
      (by decide)⟩

/-- C18, counterexample: over the empty ledger, where the key alice_bofa is absent, a
withdrawal of -5 succeeds and leaves 5 under the key, not 0. -/
theorem Invoke_withdraw_negative_on_absent :
    emptyStub.state "alice_bofa" = none ∧
    (Invoke emptyStub ["withdraw", "alice", "-5", "bofa"]).2 = Outcome.ret none none ∧
    (Invoke emptyStub ["withdraw", "alice", "-5", "bofa"]).1.state "alice_bofa" = some "5" ∧
    (Invoke emptyStub ["withdraw", "alice", "-5", "bofa"]).1.state "alice_bofa" ≠ some "0" := by
  decide

/-- C18, amended: when the get succeeds and the key `A_B` is absent or holds bytes on which
`Atoi` reports a syntax error, `Invoke` takes the balance to be 0 and, when the put succeeds
too, returns success: a deposit leaves the decimal string of the amount `X`; a withdrawal
leaves 0 when `X` is not negative, and in general the wrapped `-X` when that is positive and
0 otherwise. When the key holds bytes on which `Atoi` reports a range error the balance is
taken to be the smallest `int` if the bytes start with a minus sign and the largest `int`
otherwise. `Invoke` returns the store-read error exactly when the get errors, and then the
ledger content and the put log are unchanged. -/
theorem Invoke_absent_or_undecodable (stub : ChaincodeStub) (method A s B : String) :
    ((stub.state (A ++ "_" ++ B) = none ∨
        ∃ v, stub.state (A ++ "_" ++ B) = some v ∧ (Atoi v).2 = some NumError.ErrSyntax) →
      readBalance stub.state (A ++ "_" ++ B) = 0 ∧
      (stub.getErr stub.gets.length = none → stub.putErr stub.puts.length = none →
        (Invoke stub [method, A, s, B]).2 = Outcome.ret none none ∧
        (method = "deposit" →
          (Invoke stub [method, A, s, B]).1.state (A ++ "_" ++ B)
            = some (Itoa (Atoi s).1)) ∧
        (method = "withdraw" → 0 ≤ (Atoi s).1 →
          (Invoke stub [method, A, s, B]).1.state (A ++ "_" ++ B) = some "0") ∧
        (method = "withdraw" →
          (Invoke stub [method, A, s, B]).1.state (A ++ "_" ++ B)
            = some (Itoa (if wrapInt (0 - (Atoi s).1) > 0 then wrapInt (0 - (Atoi s).1)
                else 0))))) ∧
    (∀ v, stub.state (A ++ "_" ++ B) = some v → (Atoi v).2 = some NumError.ErrRange →
      readBalance stub.state (A ++ "_" ++ B)
        = if v.data.head? = some '-' then minInt else maxInt) ∧
    ((Invoke stub [method, A, s, B]).2
        = Outcome.ret none (some (GoError.new "Failed to get state"))
      ↔ stub.getErr stub.gets.length ≠ none) ∧
    (stub.getErr stub.gets.length ≠ none →
      (Invoke stub [method, A, s, B]).1.state = stub.state ∧
      (Invoke stub [method, A, s, B]).1.puts = stub.puts) := by
  refine ⟨?_, ?_, ?_, ?_⟩
  · intro habs
    have hzero : readBalance stub.state (A ++ "_" ++ B) = 0 := by
      rcases habs with h | ⟨v, hv, he⟩
      · have h0 : Atoi "" = (0, some NumError.ErrSyntax) := by decide
        simp [readBalance, h, h0]
      · simp [readBalance, hv, Atoi_syntax_value v he]
    refine ⟨hzero, ?_⟩
    intro hget hput
    obtain ⟨h1, h2⟩ := Invoke_four_ok stub method A s B hget hput
    rw [hzero] at h2
    have hX := Atoi_inIntRange s
    refine ⟨h1, ?_, ?_, ?_⟩
    · intro hm
      rw [h2, hm]
      simp only [adjustedBalance, if_true, Int.zero_add]
      rw [wrapInt_of_inIntRange _ hX]
    · intro hm hnn
      have hne : ¬ ("withdraw" = "deposit") := by decide
      have hw : ¬ (wrapInt (0 - (Atoi s).1) > 0) := by
        unfold inIntRange minInt maxInt intSize at hX
        unfold wrapInt intSize
        norm_num at hX ⊢
        omega
      rw [h2, hm]
      simp only [adjustedBalance, hne, if_false, if_true, hw]
      rfl
    · intro hm
      have hne : ¬ ("withdraw" = "deposit") := by decide
      rw [h2, hm]
      simp only [adjustedBalance, hne, if_false, if_true]
  · intro v hv he
    have h := Atoi_range_value_sign v he
    simpa [readBalance, hv] using h
  · rw [Invoke_four]
    rcases hg : stub.getErr stub.gets.length with _ | e
    · rcases hp : stub.putErr stub.puts.length with _ | c <;> simp
    · simp
  · intro hg
    rw [Invoke_four]
    rcases hg1 : stub.getErr stub.gets.length with _ | e
    · exact absurd hg1 hg
    · exact ⟨rfl, rfl⟩

/-- Witness of C18: over the empty ledger a deposit of 30 for alice at bofa succeeds and
leaves 30, a withdrawal of 30 leaves 0; a key that holds -9223372036854775809 is read as the
smallest `int` and one that holds 9223372036854775808 as the largest, and the method audit
writes -9223372036854775808 back over the former; on a stub whose get fails `Invoke` returns
the store-read error. -/
theorem Invoke_absent_or_undecodable_witness :
    ((Invoke emptyStub ["deposit", "alice", "30", "bofa"]).2 = Outcome.ret none none ∧
      (Invoke emptyStub ["deposit", "alice", "30", "bofa"]).1.state ("alice" ++ "_" ++ "bofa")
        = some (Itoa (Atoi "30").1)) ∧
    (Invoke emptyStub ["withdraw", "alice", "30", "bofa"]).1.state ("alice" ++ "_" ++ "bofa")
      = some "0" ∧
    readBalance (storeWith "alice_bofa" "-9223372036854775809").state ("alice" ++ "_" ++ "bofa")
      = minInt ∧
    readBalance (storeWith "alice_bofa" "9223372036854775808").state ("alice" ++ "_" ++ "bofa")
      = maxInt ∧
    (Invoke (storeWith "alice_bofa" "-9223372036854775809")
      ["audit", "alice", "0", "bofa"]).1.state "alice_bofa" = some "-9223372036854775808" ∧
    (Invoke { emptyStub with getErr := fun _ => some 3 }
      ["deposit", "alice", "30", "bofa"]).2
      = Outcome.ret none (some (GoError.new "Failed to get state")) :=
  ⟨⟨(((Invoke_absent_or_undecodable emptyStub "deposit" "alice" "30" "bofa").1
        (Or.inl rfl)).2 rfl rfl).1,
    (((Invoke_absent_or_undecodable emptyStub "deposit" "alice" "30" "bofa").1
        (Or.inl rfl)).2 rfl rfl).2.1 rfl⟩,
   (((Invoke_absent_or_undecodable emptyStub "withdraw" "alice" "30" "bofa").1
        (Or.inl rfl)).2 rfl rfl).2.2.1 rfl (by decide),
   ((Invoke_absent_or_undecodable (storeWith "alice_bofa" "-9223372036854775809") "deposit"
      "alice" "30" "bofa").2.1 "-9223372036854775809" (by decide) (by decide)).trans
      (by decide),
   ((Invoke_absent_or_undecodable (storeWith "alice_bofa" "9223372036854775808") "deposit"
      "alice" "30" "bofa").2.1 "9223372036854775808" (by decide) (by decide)).trans
      (by decide),
   by decide,
   (Invoke_absent_or_undecodable { emptyStub with getErr := fun _ => some 3 }
      "deposit" "alice" "30" "bofa").2.2.1.mpr (by decide)⟩

/-- C19, counterexample: the amount 9223372036854775808 does not parse (range error); over
the empty ledger a deposit of it succeeds and leaves 9223372036854775807, while the same call
with the amount 0 leaves 0. -/
theorem Invoke_amount_out_of_range :
    Atoi "9223372036854775808" = (9223372036854775807, some NumError.ErrRange) ∧
    (Invoke emptyStub ["deposit", "alice", "9223372036854775808", "bofa"]).2
      = Outcome.ret none none ∧
    (Invoke emptyStub ["deposit", "alice", "9223372036854775808", "bofa"]).1.state "alice_bofa"
      = some "9223372036854775807" ∧
    (Invoke emptyStub ["deposit", "alice", "0", "bofa"]).1.state "alice_bofa" = some "0" ∧
    (Invoke emptyStub ["deposit", "alice", "9223372036854775808", "bofa"]).1.state "alice_bofa"
      ≠ (Invoke emptyStub ["deposit", "alice", "0", "bofa"]).1.state "alice_bofa" := by
  decide

/-- C19, amended: when get and put succeed and the amount string does not parse, `Invoke`
returns success (never an invalid-amount error) and goes on with the value `Atoi` returned
beside the error, which is a syntax error or a range error: for a syntax error that value
is 0 and the call does exactly what the call
with the amount 0 does; for a range error it is the smallest `int` if the string starts
with a minus sign and the largest `int` otherwise, and the call does exactly what the call
with the amount -9223372036854775808, respectively 9223372036854775807, does. -/
theorem Invoke_unparsable_amount (stub : ChaincodeStub) (method A s B : String)
    (hget : ∀ n, stub.getErr n = none) (hput : ∀ n, stub.putErr n = none)
    (hs : (Atoi s).2 ≠ none) :
    (Invoke stub [method, A, s, B]).2 = Outcome.ret none none ∧
    ((Atoi s).2 = some NumError.ErrSyntax ∨ (Atoi s).2 = some NumError.ErrRange) ∧
    ((Atoi s).2 = some NumError.ErrSyntax →
      Invoke stub [method, A, s, B] = Invoke stub [method, A, "0", B]) ∧
    ((Atoi s).2 = some NumError.ErrRange →
      (Atoi s).1 = (if s.data.head? = some '-' then minInt else maxInt) ∧
      Invoke stub [method, A, s, B]
        = Invoke stub [method, A,
            if s.data.head? = some '-' then "-9223372036854775808"
            else "9223372036854775807", B]) := by
  refine ⟨(Invoke_four_ok stub method A s B (hget _) (hput _)).1, ?_, ?_, ?_⟩
  · rcases he : (Atoi s).2 with _ | e
    · exact absurd he hs
    · cases e <;> simp
  · intro he
    have h0 : (Atoi "0").1 = 0 := by decide
    exact Invoke_congr_amount stub method A s "0" B (by rw [Atoi_syntax_value s he, h0])
  · intro he
    have hmax : (Atoi "9223372036854775807").1 = maxInt := by decide
    have hmin : (Atoi "-9223372036854775808").1 = minInt := by decide
    have hval := Atoi_range_value_sign s he
    refine ⟨hval, Invoke_congr_amount stub method A s _ B ?_⟩
    rw [hval]
    by_cases hsign : s.data.head? = some '-'
    · rw [if_pos hsign, if_pos hsign, hmin]
    · rw [if_neg hsign, if_neg hsign, hmax]

/-- Witness of C19: over the empty ledger a deposit of the amount abc succeeds and does
what a deposit of 0 does; a deposit of -9223372036854775809 does what a deposit of
-9223372036854775808 does and leaves -9223372036854775808. -/
theorem Invoke_unparsable_amount_witness :
    (Invoke emptyStub ["deposit", "alice", "abc", "bofa"]).2 = Outcome.ret none none ∧
    Invoke emptyStub ["deposit", "alice", "abc", "bofa"]
      = Invoke emptyStub ["deposit", "alice", "0", "bofa"] ∧
    Invoke emptyStub ["deposit", "alice", "-9223372036854775809", "bofa"]
      = Invoke emptyStub ["deposit", "alice",
          if "-9223372036854775809".data.head? = some '-' then "-9223372036854775808"
          else "9223372036854775807", "bofa"] ∧
    (Invoke emptyStub ["deposit", "alice", "-9223372036854775809", "bofa"]).1.state
      "alice_bofa" = some "-9223372036854775808" :=
  ⟨(Invoke_unparsable_amount emptyStub "deposit" "alice" "abc" "bofa" (fun _ => rfl)
      (fun _ => rfl) (by decide)).1,
   (Invoke_unparsable_amount emptyStub "deposit" "alice" "abc" "bofa" (fun _ => rfl)
      (fun _ => rfl) (by decide)).2.2.1 (by decide),
   ((Invoke_unparsable_amount emptyStub "deposit" "alice" "-9223372036854775809" "bofa"
      (fun _ => rfl) (fun _ => rfl) (by decide)).2.2.2 (by decide)).2,
   by decide⟩

/-! ## The Holding key -/

/-- The key `Init` writes for a pair, the key `Invoke` reads and writes, and the key `Query`
reads for two arguments, are the Holding key. -/
theorem holdingKey_used (stub : ChaincodeStub) (method A s B : String) :
    (holdingPut A (B, s)).1 = holdingKey A B ∧
    (Invoke stub [method, A, s, B]).1.gets = stub.gets ++ [holdingKey A B] ∧
    (Query stub "query" [A, B]).1.gets = stub.gets ++ [holdingKey A B] := by
  refine ⟨rfl, ?_, ?_⟩
  · rw [Invoke_four]
    rcases stub.getErr stub.gets.length with _ | e
    · rcases stub.putErr stub.puts.length with _ | c <;> rfl
    · rfl
  · simp only [Query, indexArgs, GetState]
    rcases hg : stub.getErr stub.gets.length with _ | e
    · rcases hv : stub.state (A ++ "_" ++ B) with _ | v <;> simp [holdingKey, hv]
    · simp [holdingKey]

/-- Two lists split around a separator that occurs in neither left part have equal parts. -/
theorem append_separator_inj (c : Char) (l1 : List Char) :
    ∀ (l2 r1 r2 : List Char), c ∉ l1 → c ∉ l2 → l1 ++ c :: r1 = l2 ++ c :: r2 →
      l1 = l2 ∧ r1 = r2 := by
  induction l1 with
  | nil =>
    intro l2 r1 r2 _ h2 h
    cases l2 with
    | nil => simpa using h
    | cons d l2 =>
      simp at h
      exact absurd (by rw [h.1]; exact List.mem_cons_self _ _) h2
  | cons d l1 ih =>
    intro l2 r1 r2 h1 h2 h
    cases l2 with
    | nil =>
      simp at h
      exact absurd (by rw [← h.1]; exact List.mem_cons_self _ _) h1
    | cons e l2 =>
      simp at h
      obtain ⟨hde, hrest⟩ := h
      obtain ⟨hl, hr⟩ := ih l2 r1 r2 (fun hm => h1 (List.mem_cons_of_mem _ hm))
        (fun hm => h2 (List.mem_cons_of_mem _ hm)) hrest
      exact ⟨by rw [hde, hl], hr⟩

/-- C20: when neither account name contains the separator `_`, equal Holding keys come from
equal account names and equal bank names; and the Holding key of an account is never the
Account key of that account. -/
theorem holdingKey_injective (a a1 b b1 : String) (ha : '_' ∉ a.data) (ha1 : '_' ∉ a1.data) :
    (holdingKey a b = holdingKey a1 b1 → a = a1 ∧ b = b1) ∧ holdingKey a b ≠ a := by
  constructor
  · intro h
    have hd := congrArg String.data h
    have h1 : "_".data = ['_'] := rfl
    simp only [holdingKey, String.data_append, h1, List.append_assoc, List.singleton_append]
      at hd
    obtain ⟨hl, hr⟩ := append_separator_inj '_' a.data a1.data b.data b1.data ha ha1 hd
    exact ⟨String.ext hl, String.ext hr⟩
  · exact holdingKey_ne_account a b

/-- Witness of C20: the account name alice has no separator, the Holding key of alice at
bofa is equal to itself only for that account and that bank, and it is not the key alice. -/
theorem holdingKey_injective_witness :
    (holdingKey "alice" "bofa" = holdingKey "alice" "bofa" → "alice" = "alice" ∧ "bofa" = "bofa") ∧
    holdingKey "alice" "bofa" ≠ "alice" :=
  holdingKey_injective "alice" "alice" "bofa" "bofa" (by decide) (by decide)

/-! ## The sign of the balance `Invoke` leaves -/

/-- The decimal string of a negative integer has a minus sign. -/
theorem Itoa_neg_has_minus (b : Int) (hb : b < 0) : '-' ∈ (Itoa b).data := by
  cases b with
  | ofNat n =>
    simp only [Int.ofNat_eq_coe] at hb
    omega
  | negSucc n =>
    have hI : (Itoa (Int.negSucc n)).data = '-' :: formatUint (n + 1) := rfl
    rw [hI]
    exact List.mem_cons_self _ _

/-- A value is the decimal string of some non-negative integer exactly when the integer it is
the decimal string of is non-negative. -/
theorem Itoa_nonneg_iff (z : Int) :
    (∃ b : Int, 0 ≤ b ∧ some (Itoa z) = some (Itoa b)) ↔ 0 ≤ z := by
  constructor
  · rintro ⟨b, hb, h⟩
    by_contra hz
    have hminus := Itoa_neg_has_minus z (by omega)
    rw [Option.some.inj h] at hminus
    exact Itoa_nonneg_no_minus b hb hminus
  · intro hz
    exact ⟨z, hz, rfl⟩

/-- When the balance `Invoke` writes back is non-negative, for a balance read `c` and an
amount `X` in the range of `int`. -/
theorem adjustedBalance_nonneg_iff (method : String) (c X : Int)
    (hc : inIntRange c) (hX : inIntRange X) :
    0 ≤ adjustedBalance method c X ↔
      (method = "withdraw" ∨
        (method = "deposit" ∧ ((0 ≤ c + X ∧ c + X ≤ maxInt) ∨ c + X < minInt)) ∨
        (method ≠ "deposit" ∧ method ≠ "withdraw" ∧ 0 ≤ c)) := by
  have hdw : ¬ ("deposit" = "withdraw") := by decide
  have hwd : ¬ ("withdraw" = "deposit") := by decide
  unfold inIntRange minInt maxInt intSize at hc hX
  norm_num at hc hX
  by_cases hd : method = "deposit"
  · subst hd
    simp only [adjustedBalance, if_true, hdw, false_or, true_and, ne_eq, not_true_eq_false,
      false_and, or_false]
    unfold wrapInt minInt maxInt intSize
    norm_num
    omega
  · by_cases hw : method = "withdraw"
    · subst hw
      simp only [adjustedBalance, hwd, if_false, if_true, true_or, iff_true]
      split
      · omega
      · exact Int.le_refl 0
    · simp [adjustedBalance, hd, hw]

/-- C9, amended: after a successful `Invoke` on `[method, A, s, B]`, with `c` the balance read
and `X` the amount (both as `Atoi` returns them, errors ignored), the value under `A_B` is the
decimal string of a non-negative integer if and only if the method is withdraw, or the
method is deposit and `c + X` lies between 0 and the largest `int` or below the smallest
`int` (it then wraps to a non-negative value), or the method is neither and `c` is
non-negative. -/
theorem Invoke_nonneg_balance (stub : ChaincodeStub) (method A s B : String)
    (hok : (Invoke stub [method, A, s, B]).2 = Outcome.ret none none) :
    (∃ b : Int, 0 ≤ b ∧
      (Invoke stub [method, A, s, B]).1.state (A ++ "_" ++ B) = some (Itoa b)) ↔
    (method = "withdraw" ∨
      (method = "deposit" ∧
        ((0 ≤ readBalance stub.state (A ++ "_" ++ B) + (Atoi s).1 ∧
            readBalance stub.state (A ++ "_" ++ B) + (Atoi s).1 ≤ maxInt) ∨
          readBalance stub.state (A ++ "_" ++ B) + (Atoi s).1 < minInt)) ∨
      (method ≠ "deposit" ∧ method ≠ "withdraw" ∧
        0 ≤ readBalance stub.state (A ++ "_" ++ B))) := by
  rw [Invoke_four_of_success stub method A s B hok, Itoa_nonneg_iff]
  exact adjustedBalance_nonneg_iff method _ _ (Atoi_inIntRange _) (Atoi_inIntRange s)

/-- Witness of C9: after `Init` has stored the negative balance -5 for alice at bofa, a
deposit of 10 succeeds and leaves a non-negative balance; after `Init` with the balance 10, a
deposit of -5 does too; and after `Init` with the balance 130 a withdrawal of 200 does. -/
theorem Invoke_nonneg_balance_witness :
    (∃ b : Int, 0 ≤ b ∧
      (Invoke (Init emptyStub ["alice", "bofa", "-5"]).1
        ["deposit", "alice", "10", "bofa"]).1.state ("alice" ++ "_" ++ "bofa")
        = some (Itoa b)) ∧
    (∃ b : Int, 0 ≤ b ∧
      (Invoke (Init emptyStub ["alice", "bofa", "10"]).1
        ["deposit", "alice", "-5", "bofa"]).1.state ("alice" ++ "_" ++ "bofa")
        = some (Itoa b)) ∧
    (∃ b : Int, 0 ≤ b ∧
      (Invoke (Init emptyStub ["alice", "bofa", "130"]).1
        ["withdraw", "alice", "200", "bofa"]).1.state ("alice" ++ "_" ++ "bofa")
        = some (Itoa b)) :=
  ⟨(Invoke_nonneg_balance (Init emptyStub ["alice", "bofa", "-5"]).1 "deposit" "alice" "10"
      "bofa" (by decide)).mpr (by decide),
   (Invoke_nonneg_balance (Init emptyStub ["alice", "bofa", "10"]).1 "deposit" "alice" "-5"
      "bofa" (by decide)).mpr (by decide),
   (Invoke_nonneg_balance (Init emptyStub ["alice", "bofa", "130"]).1 "withdraw" "alice" "200"
      "bofa" (by decide)).mpr (Or.inl rfl)⟩

end Bank
